import Mathlib

/-!
Verification development for the inventohub patent-pipeline repository.

The Python sources are shallowly embedded below:
* `epo_parse_xml.py` / `epo_to_parquet.py` — `parse_xml`, `process_year`,
  `preprocess_text`, `chunk_text`, `embed_document`;
* `uspto_scraper.py` — `split_patent_documents` and the dedup step of
  `process_uspto_zip_to_parquet`;
* `epo_2022_2024.py` — the chunked parquet rewriter `main`.

Python strings are embedded as Lean `String` (ASCII-faithful: Python's
Unicode-aware `str.strip`, `str.isdigit`, `\w`, `\s` are modelled by their
ASCII cores); Python `int` as `Nat`/`Int`; `None`/exception outcomes as
`Option`.  External collaborators (S3, tokenizer, sentence model,
postgres) are parameters of the embedded functions.
-/

/-! ## Python string primitives -/

/-- Python `str.strip()` (whitespace strip from both ends). -/
def pyStrip (s : String) : String :=
  ⟨((s.data.dropWhile Char.isWhitespace).reverse.dropWhile Char.isWhitespace).reverse⟩

/-- Python `sep.join(list)`. -/
def pyJoin (sep : String) : List String → String
  | [] => ""
  | [s] => s
  | s :: rest => s ++ sep ++ pyJoin sep rest

/-- Python `str.lower()` (ASCII core). -/
def pyLower (s : String) : String := ⟨s.data.map Char.toLower⟩

/-- Python `str.isdigit()` (ASCII core: nonempty and all decimal digits). -/
def pyIsdigit (s : String) : Bool := !s.data.isEmpty && s.data.all Char.isDigit

/-- Python `int(s)` on an all-digit string. -/
def digitsToNat (s : String) : Nat :=
  s.data.foldl (fun a c => a * 10 + (c.toNat - 48)) 0

/-- Python `s[:4]`. -/
def pySlice4 (s : String) : String := ⟨s.data.take 4⟩

/-- The characters stripped by Python's `str.strip(", ")`. -/
def commaSpace : List Char := [',', ' ']

/-- Python `str.strip(", ")`: drop `,` and space from both ends. -/
def pyStripCS (s : String) : String :=
  ⟨((s.data.dropWhile (· ∈ commaSpace)).reverse.dropWhile (· ∈ commaSpace)).reverse⟩

/-- Number of (non-overlapping) occurrences of the two-character
separator `"; "` in a character list. -/
def sepCount : List Char → Nat
  | ';' :: ' ' :: rest => sepCount rest + 1
  | _ :: rest => sepCount rest
  | [] => 0

/-! ## The XML tree model (`xml.etree.ElementTree`)

An element has a tag, an attribute list, optional text, an optional tail
(text following its end tag inside the parent), and a child list. -/

inductive XML where
  | mk (tag : String) (attrs : List (String × String)) (text : Option String)
       (tail : Option String) (children : List XML)

def XML.tag : XML → String
  | .mk t _ _ _ _ => t

def XML.attrs : XML → List (String × String)
  | .mk _ a _ _ _ => a

def XML.text : XML → Option String
  | .mk _ _ tx _ _ => tx

def XML.tail : XML → Option String
  | .mk _ _ _ tl _ => tl

def XML.children : XML → List XML
  | .mk _ _ _ _ cs => cs

/-- `element.attrib.get(k)` -/
def attrLookup (e : XML) (k : String) : Option String :=
  (e.attrs.find? (fun p => p.1 == k)).map (·.2)

/-- `element.attrib.get(k, dflt)` -/
def attrGet (e : XML) (k : String) (dflt : String) : String :=
  (attrLookup e k).getD dflt

/-- Children with a given tag (one step of an ElementTree path). -/
def childrenTagged (t : String) (e : XML) : List XML :=
  e.children.filter (fun c => c.tag == t)

mutual

/-- `element.iter()`: the element and all its descendants, in document
(preorder) order. -/
def descendantsAndSelf : XML → List XML
  | .mk t a tx tl cs => .mk t a tx tl cs :: descendantsList cs

def descendantsList : List XML → List XML
  | [] => []
  | c :: cs => descendantsAndSelf c ++ descendantsList cs

end

mutual

/-- `''.join(element.itertext())`: own text, then each child's itertext
followed by that child's tail. -/
def itertext : XML → String
  | .mk _ _ tx _ cs => tx.getD "" ++ itertextList cs

def itertextList : List XML → String
  | [] => ""
  | c :: cs => itertext c ++ c.tail.getD "" ++ itertextList cs

end

/-- A relative ElementTree path `t1/t2/...` evaluated at an element:
nested child steps, results in nested-loop (document) order. -/
def relChain : List String → XML → List XML
  | [], e => [e]
  | t :: ts, e => (childrenTagged t e).flatMap (relChain ts)

/-- `root.findall(".//t1/t2/...")`: descendant-or-self, then the child
chain, in document order. -/
def findallDesc (tags : List String) (e : XML) : List XML :=
  (descendantsAndSelf e).flatMap (relChain tags)

/-- `root.find(".//tag[@k='v']")`: first descendant with the tag whose
attribute `k` equals `v`. -/
def findDescAttr (t k v : String) (e : XML) : Option XML :=
  ((descendantsAndSelf e).flatMap
    (fun d => (childrenTagged t d).filter (fun c => attrLookup c k == some v))).head?

/-- `root.findtext(".//t1/.../tk", dflt)`: text of the first match (an
element with `text=None` yields `""`), or the default when no match. -/
def findtextDesc (tags : List String) (e : XML) (dflt : String) : String :=
  match (findallDesc tags e).head? with
  | some el => el.text.getD ""
  | none => dflt

/-- `el.findtext("t1/.../tk", dflt)` for a relative path. -/
def findtextRel (tags : List String) (el : XML) (dflt : String) : String :=
  match (relChain tags el).head? with
  | some e => e.text.getD ""
  | none => dflt

/-! ## `parse_xml` (epo_parse_xml.py lines 39-154; the identical core also
appears in epo_to_parquet.py lines 80-185) -/

/-- The comprehension filter-and-strip used throughout `parse_xml`:
`el.text.strip() ... if el.text` (truthy text, then stripped). -/
def truthyStrip (el : XML) : Option String :=
  match el.text with
  | some s => if s = "" then none else some (pyStrip s)
  | none => none

/-- Inner helper `get_texts(parent, tags)`. -/
def get_texts (parent : Option XML) (tags : List String) : String :=
  match parent with
  | none => ""
  | some p => pyJoin " " ((tags.flatMap (fun t => findallDesc [t] p)).filterMap truthyStrip)

/-- `tag.split('\x7d', 1)[-1]`: namespace-stripping of a tag. -/
def stripNs (t : String) : String :=
  if t.data.contains '\x7d' then ⟨(t.data.dropWhile (· ≠ '\x7d')).tail⟩ else t

def orderedTags : List String := ["p", "ul", "li", "heading"]

/-- Inner helper `get_ordered_texts(elem)`: depth-first traversal collecting
stripped `itertext` of paragraph/list/heading nodes, newline-joined. -/
def get_ordered_texts (elem : Option XML) : String :=
  match elem with
  | none => ""
  | some e => pyJoin "\n" ((descendantsAndSelf e).filterMap (fun child =>
      if stripNs child.tag ∈ orderedTags then
        (let t := pyStrip (itertext child); if t = "" then none else some t)
      else none))

/-- The `classification-ipcr` text elements
(`root.findall(".//B500/B510EP/classification-ipcr/text")`). -/
def ipcEls (root : XML) : List XML :=
  findallDesc ["B500", "B510EP", "classification-ipcr", "text"] root

/-- `ipc_classifications`: kept texts stripped and joined with `"; "`. -/
def ipcField (root : XML) : String :=
  pyJoin "; " ((ipcEls root).filterMap truthyStrip)

def cpcField (root : XML) : String :=
  pyJoin "; " ((findallDesc ["B520EP", "classifications-cpc", "classification-cpc", "text"] root).filterMap truthyStrip)

def applicantsField (root : XML) : String :=
  pyJoin "; " ((findallDesc ["B700", "B710", "B711", "snm"] root).filterMap truthyStrip)

def inventorsField (root : XML) : String :=
  pyJoin "; " ((findallDesc ["B720", "B721", "snm"] root).filterMap truthyStrip)

/-- The multi-language title fold over `zip(B541s, B542s)` under the first
`B540` element; returns `(title_en, title_de, title_fr)`. -/
def titlesOf (root : XML) : String × String × String :=
  match (findallDesc ["B540"] root).head? with
  | none => ("", "", "")
  | some b540 =>
    (List.zip (childrenTagged "B541" b540) (childrenTagged "B542" b540)).foldl
      (fun acc lt =>
        let lang := match lt.1.text with
          | some s => if s = "" then "" else pyStrip s
          | none => ""
        let text := match lt.2.text with
          | some s => if s = "" then "" else pyStrip s
          | none => ""
        if pyLower lang = "en" then (text, acc.2.1, acc.2.2)
        else if pyLower lang = "de" then (acc.1, text, acc.2.2)
        else if pyLower lang = "fr" then (acc.1, acc.2.1, text)
        else acc)
      ("", "", "")

def intClassField (root : XML) : String :=
  pyJoin "; " ((pyStrip (findtextDesc ["B510", "B511"] root "") ::
    (findallDesc ["B510", "B512"] root).filterMap truthyStrip).filter (· ≠ ""))

/-- One `representatives`/`proprietors` entry:
`f"{el.findtext('snm','').strip()}, {el.findtext('adr/city','').strip()}, {el.findtext('adr/ctry','').strip()}".strip(", ")`. -/
def reprEntry (el : XML) : String :=
  pyStripCS (pyStrip (findtextRel ["snm"] el "") ++ ", " ++
    pyStrip (findtextRel ["adr", "city"] el "") ++ ", " ++
    pyStrip (findtextRel ["adr", "ctry"] el ""))

def b741Els (root : XML) : List XML := findallDesc ["B700", "B740", "B741"] root

def representativesField (root : XML) : String :=
  pyJoin "; " ((b741Els root).map reprEntry)

def b731Els (root : XML) : List XML := findallDesc ["B700", "B730", "B731"] root

def proprietorsField (root : XML) : String :=
  pyJoin "; " ((b731Els root).map reprEntry)

/-- `correction_description`: first English-language `B1552` text under a
`B150/B155`, via the positional `zip(B1551s, B1552s)`. -/
def correctionDescField (root : XML) : String :=
  (((findallDesc ["B150", "B155"] root).flatMap (fun b155 =>
      (List.zip (childrenTagged "B1551" b155) (childrenTagged "B1552" b155)).filterMap
        (fun lt => match lt.1.text, lt.2.text with
          | some l, some t => if l = "en" ∧ t ≠ "" then some (pyStrip t) else none
          | _, _ => none))).head?).getD ""

def referencesCitedField (root : XML) : String :=
  pyJoin "; " ((findallDesc ["B560", "B561", "text"] root).filterMap truthyStrip)

/-- The flat record dictionary produced by `parse_xml`. -/
structure Record where
  doc_id : String
  title_en : String
  title_de : String
  title_fr : String
  doc_number : Nat
  lang : Option String
  country : Option String
  abstract : String
  description : String
  claims : String
  ipc_classifications : String
  cpc_classifications : String
  international_application_number : String
  applicants : String
  inventors : String
  int_classifications : String
  date_publication : String
  year_publication : String
  date_filing : String
  year_filing : String
  priority_number : String
  priority_date : String
  representatives : String
  correction_code : String
  correction_description : String
  references_cited : String
  proprietors : String

/-- `el.text.strip() if el is not None else ""`: with an element present
whose `text` is `None`, `.strip()` raises (AttributeError), which the outer
`except` turns into a `None` result — hence the `Option`. -/
def optTextStrip (o : Option XML) : Option String :=
  match o with
  | some el => el.text.map pyStrip
  | none => some ""

/-- `parse_xml` on an already-parsed tree (a well-formed document; fetch
and XML-parse failures are upstream discards).  Returns `none` exactly on
the discard paths of the Python function. -/
def parse_xml (root : XML) : Option Record :=
  let doc_id := pyStrip (attrGet root "id" "")
  let doc_number_str := pyStrip (attrGet root "doc-number" "")
  if doc_id = "" ∨ doc_number_str = "" ∨ pyIsdigit doc_number_str = false then
    none
  else
    let titles := titlesOf root
    (optTextStrip ((findallDesc ["B860", "B861", "dnum", "anum"] root).head?)).bind fun ian =>
    (optTextStrip ((findallDesc ["B400", "B405", "date"] root).head?)).bind fun date_publication =>
    (optTextStrip ((findallDesc ["B200", "B220", "date"] root).head?)).bind fun date_filing =>
    some {
      doc_id := doc_id
      title_en := titles.1
      title_de := titles.2.1
      title_fr := titles.2.2
      doc_number := digitsToNat doc_number_str
      lang := attrLookup root "lang"
      country := attrLookup root "country"
      abstract := get_texts (findDescAttr "abstract" "id" "abst" root) ["p"]
      description := get_ordered_texts (findDescAttr "description" "id" "desc" root)
      claims := get_texts (findDescAttr "claims" "id" "claims01" root) ["claim-text"]
      ipc_classifications := ipcField root
      cpc_classifications := cpcField root
      international_application_number := ian
      applicants := applicantsField root
      inventors := inventorsField root
      int_classifications := intClassField root
      date_publication := date_publication
      year_publication := pySlice4 date_publication
      date_filing := date_filing
      year_filing := pySlice4 date_filing
      priority_number := pyStrip (findtextDesc ["B300", "B310"] root "")
      priority_date := pyStrip (findtextDesc ["B300", "B320", "date"] root "")
      representatives := representativesField root
      correction_code := pyStrip (findtextDesc ["B150", "B151"] root "")
      correction_description := correctionDescField root
      references_cited := referencesCitedField root
      proprietors := proprietorsField root }

/-! ## `process_year` (epo_parse_xml.py lines 160-220)

The database is a collaborator: `execute_batch` with a parameterized query
raises when a named parameter is missing from a row dictionary
(psycopg2 `KeyError`), and may otherwise fail for server-side reasons,
modelled by a per-attempt oracle.  A failure is caught, the transaction
rolled back, and — exactly as in the code — the accumulated `batch` list
is NOT cleared. -/

/-- A Python dict value as it appears in a record row. -/
inductive PVal where
  | vStr (s : String)
  | vInt (n : Nat)
  | vNull
deriving DecidableEq

def optStr : Option String → PVal
  | some s => .vStr s
  | none => .vNull

/-- The record dictionary literal returned by `parse_xml`
(epo_parse_xml.py lines 110-151), keys in source order. -/
def Record.toDict (r : Record) : List (String × PVal) :=
  [("doc_id", .vStr r.doc_id),
   ("title_en", .vStr r.title_en),
   ("title_de", .vStr r.title_de),
   ("title_fr", .vStr r.title_fr),
   ("doc_number", .vInt r.doc_number),
   ("lang", optStr r.lang),
   ("country", optStr r.country),
   ("abstract", .vStr r.abstract),
   ("description", .vStr r.description),
   ("claims", .vStr r.claims),
   ("ipc_classifications", .vStr r.ipc_classifications),
   ("cpc_classifications", .vStr r.cpc_classifications),
   ("international_application_number", .vStr r.international_application_number),
   ("applicants", .vStr r.applicants),
   ("inventors", .vStr r.inventors),
   ("int_classifications", .vStr r.int_classifications),
   ("date_publication", .vStr r.date_publication),
   ("year_publication", .vStr r.year_publication),
   ("date_filing", .vStr r.date_filing),
   ("year_filing", .vStr r.year_filing),
   ("priority_number", .vStr r.priority_number),
   ("priority_date", .vStr r.priority_date),
   ("representatives", .vStr r.representatives),
   ("correction_code", .vStr r.correction_code),
   ("correction_description", .vStr r.correction_description),
   ("references_cited", .vStr r.references_cited),
   ("proprietors", .vStr r.proprietors)]

/-- A record row as consumed by `execute_batch`. -/
abbrev Dict := List (String × PVal)

/-- The `%(name)s` parameters of `insert_query`
(epo_parse_xml.py lines 170-185), in VALUES-clause order. -/
def insertQueryParams : List String :=
  ["doc_id", "title_en", "title_de", "title_fr", "doc_number", "lang", "country",
   "abstract", "description", "claims", "date_publ", "ipc_classifications",
   "cpc_classifications", "international_application_number", "applicants",
   "inventors", "int_classifications", "date_publication", "date_filing"]

/-- `execute_batch` succeeds on a row only if every query parameter is a
key of the row dictionary. -/
def dictHasParams (d : Dict) : Bool :=
  insertQueryParams.all (fun p => (d.map Prod.fst).contains p)

def batch_size : Nat := 500

/-- The mutable state of the `process_year` loop, plus a log of flush
attempts (batch contents, success flag) for stating properties. -/
structure LoopState where
  batch : List Dict
  total : Nat
  flushes : List (List Dict × Bool)

/-- One `execute_batch`+commit attempt: on success the batch is cleared
and counted; on failure (missing parameter, or a database error decided by
the oracle) the transaction is rolled back and the batch kept as-is. -/
def tryFlush (oracle : Nat → Bool) (st : LoopState) : LoopState :=
  if st.batch.all dictHasParams && oracle st.flushes.length then
    { batch := [], total := st.total + st.batch.length,
      flushes := st.flushes ++ [(st.batch, true)] }
  else
    { batch := st.batch, total := st.total,
      flushes := st.flushes ++ [(st.batch, false)] }

/-- One loop iteration of `process_year`: a parsed record is appended to
the batch, and a flush is attempted once the batch reaches `batch_size`;
a discarded document (`None`) is skipped. -/
def processStep (oracle : Nat → Bool) (st : LoopState) : Option Dict → LoopState
  | none => st
  | some d =>
    let st' : LoopState := { st with batch := st.batch ++ [d] }
    if batch_size ≤ st'.batch.length then tryFlush oracle st' else st'

/-- `process_year` over the stream of per-document parse results: the
main loop followed by the final `if batch:` flush. -/
def process_year (oracle : Nat → Bool) (inputs : List (Option Dict)) : LoopState :=
  let st := inputs.foldl (processStep oracle) ⟨[], 0, []⟩
  if st.batch.isEmpty then st else tryFlush oracle st

/-- Concatenation of the successfully flushed batches of a run. -/
def successFlushed (st : LoopState) : List Dict :=
  ((st.flushes.filter (·.2)).map (·.1)).flatten

/-! ## `split_patent_documents` (uspto_scraper.py lines 137-147)

The regex
`(<\?xml[^>]+>\s*<!DOCTYPE[^>]+>\s*<us-patent-[a-z-]+[^>]*>.*?</us-patent-[a-z-]+>)`
with DOTALL, applied via `re.findall` (leftmost, non-overlapping scan).
For this particular pattern every greedy/lazy sub-pattern is
deterministic — the character that must follow each repeated class can
never itself belong to the class — so the match is computed without
backtracking search. -/

/-- Python `\s` (ASCII core). -/
def isSpacePy (c : Char) : Bool :=
  c = ' ' || c = '\t' || c = '\n' || c = '\r' || c = '\x0b' || c = '\x0c'

/-- The character class `[a-z-]`. -/
def isAzDash (c : Char) : Bool := ('a' ≤ c && c ≤ 'z') || c = '-'

def xmlLit : List Char := "<?xml".data
def doctypeLit : List Char := "<!DOCTYPE".data
def openLit : List Char := "<us-patent-".data
def endTagLit : List Char := "</us-patent-".data

/-- Match a literal at the head of the input; returns the rest. -/
def matchLit (pat l : List Char) : Option (List Char) :=
  if l.take pat.length = pat then some (l.drop pat.length) else none

/-- `[^>]+>`: at least one non-`>` character, up to and including the
first `>`. -/
def gtChunk (l : List Char) : Option (List Char) :=
  if (l.takeWhile (· ≠ '>')).isEmpty then none
  else match l.dropWhile (· ≠ '>') with
    | '>' :: r => some r
    | _ => none

/-- `[a-z-]+[^>]*>`: first character in `[a-z-]`, then everything up to
and including the first `>`. -/
def headChunk (l : List Char) : Option (List Char) :=
  match l with
  | c :: _ => if isAzDash c then gtChunk l else none
  | [] => none

/-- `[a-z-]+>`: a nonempty maximal `[a-z-]` run followed immediately by `>`. -/
def azRunGt (l : List Char) : Option (List Char) :=
  if (l.takeWhile isAzDash).isEmpty then none
  else match l.dropWhile isAzDash with
    | '>' :: r => some r
    | _ => none

/-- The lazy `.*?</us-patent-[a-z-]+>`: try the end-tag pattern at each
successive position; on success return the input after the end tag. -/
def findEnd : List Char → Option (List Char)
  | [] => none
  | c :: rest =>
    match matchLit endTagLit (c :: rest) with
    | some after =>
      match azRunGt after with
      | some r => some r
      | none => findEnd rest
    | none => findEnd rest

/-- Whether the literal `</us-patent-` occurs anywhere in the list. -/
def hasEndTag : List Char → Bool
  | [] => false
  | c :: rest => (matchLit endTagLit (c :: rest)).isSome || hasEndTag rest

/-- One anchored attempt of the whole pattern; returns the unconsumed rest. -/
def matchAt (l : List Char) : Option (List Char) :=
  (matchLit xmlLit l).bind fun l1 =>
  (gtChunk l1).bind fun l2 =>
  (matchLit doctypeLit (l2.dropWhile isSpacePy)).bind fun l3 =>
  (gtChunk l3).bind fun l4 =>
  (matchLit openLit (l4.dropWhile isSpacePy)).bind fun l5 =>
  (headChunk l5).bind fun l6 =>
  findEnd l6

/-- The `re.findall` scan: try a match at each position; on success emit
the matched span and continue after it, else advance one character.  The
fuel argument (instantiated with the input length, which bounds the
number of steps) keeps the recursion structural. -/
def scanAux : Nat → List Char → List (List Char)
  | 0, _ => []
  | _ + 1, [] => []
  | fuel + 1, c :: rest =>
    match matchAt (c :: rest) with
    | some r => (c :: rest).take ((c :: rest).length - r.length) :: scanAux fuel r
    | none => scanAux fuel rest

def scan (l : List Char) : List (List Char) := scanAux l.length l

/-- `split_patent_documents(xml_content)`. -/
def split_patent_documents (s : String) : List String := (scan s.data).map String.mk

/-- A complete, well-formed `us-patent-*` span, as produced by USPTO bulk
files: XML declaration, DOCTYPE, opening root tag, a body that does not
contain the closing-tag literal, and the closing tag. -/
def wfSpan (s : List Char) : Prop :=
  ∃ a w1 b w2 hd body nm,
    s = xmlLit ++ a ++ '>' :: (w1 ++ doctypeLit ++ b ++ '>' :: (w2 ++ openLit ++ hd ++ '>' :: (body ++ endTagLit ++ nm ++ ['>']))) ∧
    a ≠ [] ∧ '>' ∉ a ∧
    (∀ c ∈ w1, isSpacePy c = true) ∧
    b ≠ [] ∧ '>' ∉ b ∧
    (∀ c ∈ w2, isSpacePy c = true) ∧
    hd ≠ [] ∧ isAzDash (hd.headD ' ') = true ∧ '>' ∉ hd ∧
    hasEndTag body = false ∧
    nm ≠ [] ∧ (∀ c ∈ nm, isAzDash c = true)

/-- A multi-document blob body: an alternation of inter-document gaps and
document spans (the trailing truncated fragment is appended separately). -/
def blobCore : List (List Char × List Char) → List Char
  | [] => []
  | (g, s) :: ps => g ++ s ++ blobCore ps

/-! ## Text embedding projector (epo_to_parquet.py lines 40-77)

The NLTK corpus data, the lemmatizer, the tiktoken tokenizer and the
sentence model are external collaborators, passed in as an environment.
`modelEncode` returning `none` models `model.encode` raising. -/

def CHUNK_TOKENS : Nat := 2000
def OVERLAP_TOKENS : Nat := 200
def TARGET_DIM : Nat := 1024

structure EmbedEnv where
  stopwords : List String
  lemmatize : String → String
  encode : String → List Nat
  decode : List Nat → String
  modelEncode : List String → Option (List (List ℚ))

/-- Python `\w` (ASCII core). -/
def wordChar (c : Char) : Bool := c.isAlphanum || c = '_'

/-- `re.findall(r'\b\w+\b', text)`: maximal word-character runs. -/
def wordRunsAux : List Char → List Char → List String
  | [], acc => if acc.isEmpty then [] else [⟨acc.reverse⟩]
  | c :: rest, acc =>
    if wordChar c then wordRunsAux rest (c :: acc)
    else if acc.isEmpty then wordRunsAux rest []
    else ⟨acc.reverse⟩ :: wordRunsAux rest []

def wordRuns (l : List Char) : List String := wordRunsAux l []

/-- `preprocess_text(text)`: `None` maps to the sentinel; otherwise
lowercase, strip punctuation, tokenize, drop stopwords, lemmatize, join. -/
def preprocess_text (env : EmbedEnv) (text : Option String) : String :=
  match text with
  | none => "No text provided"
  | some t =>
    let lowered := pyLower t
    let cleaned := lowered.data.filter (fun c => wordChar c || isSpacePy c)
    let tokens := wordRuns cleaned
    let kept := tokens.filter (fun w => !(env.stopwords.contains w))
    pyJoin " " (kept.map env.lemmatize)

/-- The `while start < len(tokens)` loop of `chunk_text`: emit
`decode(tokens[start:start+max_tokens])` and advance `start` by
`max_tokens - overlap`.  Fuel-indexed; `none` marks fuel exhaustion (the
loop not having reached its exit within `fuel` iterations). -/
def chunkLoop (env : EmbedEnv) (tokens : List Nat) (maxT ov : Nat) :
    Nat → Nat → Option (List String)
  | 0, start => if start < tokens.length then none else some []
  | fuel + 1, start =>
    if start < tokens.length then
      (chunkLoop env tokens maxT ov fuel (start + (maxT - ov))).map
        (fun rest => env.decode ((tokens.drop start).take maxT) :: rest)
    else some []

/-- `chunk_text(text)` with the default budget/overlap; the token-list
length is ample fuel when the step `max_tokens - overlap` is positive. -/
def chunk_text (env : EmbedEnv) (text : String) : Option (List String) :=
  let tokens := env.encode text
  chunkLoop env tokens CHUNK_TOKENS OVERLAP_TOKENS tokens.length 0

/-- The `start` value after `n` iterations of the `chunk_text` loop, on
Python integers: `n * (max_tokens - overlap)`. -/
def pyStart (maxT ov : Nat) (n : Nat) : Int := n * ((maxT : Int) - (ov : Int))

/-- `zip(*vectors)`: transpose truncated to the shortest row (fuel-indexed
by the first row's length, which bounds the output length). -/
def pyZipStarAux : Nat → List (List ℚ) → List (List ℚ)
  | 0, _ => []
  | fuel + 1, vs =>
    if vs.isEmpty || vs.any (·.isEmpty) then []
    else vs.map (·.headD 0) :: pyZipStarAux fuel (vs.map (·.tail))

def pyZipStar (vs : List (List ℚ)) : List (List ℚ) :=
  pyZipStarAux (vs.headD []).length vs

/-- `[sum(x) / len(x) for x in zip(*vectors)]`: element-wise mean pooling. -/
def meanPool (vs : List (List ℚ)) : List ℚ :=
  (pyZipStar vs).map (fun col => col.foldl (· + ·) 0 / (col.length : ℚ))

/-- `embed_document(text)`: preprocess, chunk, encode, pool; a model
error or an empty vector list yields the zero vector of `TARGET_DIM`.
The outer `none` marks divergence of the chunk loop (never reached, by
the termination theorem for the default parameters). -/
def embed_document (env : EmbedEnv) (text : Option String) : Option (List ℚ) :=
  let processed := preprocess_text env text
  match chunk_text env processed with
  | none => none
  | some chunks =>
    match env.modelEncode chunks with
    | none => some (List.replicate TARGET_DIM 0)
    | some vectors =>
      if vectors.isEmpty then some (List.replicate TARGET_DIM 0)
      else some (meanPool vectors)

/-! ## USPTO deduplication (uspto_scraper.py lines 329-336)

`pd.DataFrame(records)` has a `pub_ref_doc_number` column iff some record
dictionary has that key; a missing key (or a `None` value) is NaN, and
`df.drop_duplicates(subset=["pub_ref_doc_number"])` keeps the first row of
each equal-valued group (NaNs form one group), preserving row order. -/

/-- A USPTO record row: keys with optional (possibly-`None`) values. -/
abbrev URec := List (String × Option String)

def pubRefKey : String := "pub_ref_doc_number"

/-- The `pub_ref_doc_number` cell of a row: `none` is NaN (key missing or
value `None`). -/
def colVal (r : URec) : Option String :=
  (r.find? (fun p => p.1 == pubRefKey)).bind (·.2)

/-- `"pub_ref_doc_number" in df.columns`. -/
def hasPubRefCol (l : List URec) : Bool :=
  l.any (fun r => (r.map Prod.fst).contains pubRefKey)

/-- `drop_duplicates(keep='first')` as a seen-set scan. -/
def dropDupsGo : List (Option String) → List URec → List URec
  | _, [] => []
  | seen, r :: rest =>
    if seen.contains (colVal r) then dropDupsGo seen rest
    else r :: dropDupsGo (colVal r :: seen) rest

/-- The dedup step of `process_uspto_zip_to_parquet`: dedup by
`pub_ref_doc_number` when the column exists, else leave the rows alone. -/
def dedupRecords (l : List URec) : List URec :=
  if hasPubRefCol l then dropDupsGo [] l else l

/-- Modelled from the spec: "given two records with the same
`pub_ref_doc_number`, only the first (in original order) survives; ...
first occurrence wins, stable order otherwise preserved" — keep each
row and drop every later row with the same key. -/
def dedupSpec (l : List URec) : List URec :=
  match l with
  | [] => []
  | r :: rest => r :: dedupSpec (rest.filter (fun x => !(colVal x == colVal r)))
termination_by l.length
decreasing_by
  have := List.length_filter_le (fun x => !(colVal x == colVal r)) rest
  simp
  omega

/-! ## Chunked columnar rewriter (epo_2022_2024.py lines 13-67) -/

/-- A row of the source parquet (only the predicate column is modelled
structurally; the rest of the row is opaque payload). -/
structure PRow where
  date_publication : String
  payload : String
deriving DecidableEq

/-- A row group, carrying its schema. -/
structure RGChunk where
  schema : String
  rows : List PRow
deriving DecidableEq

/-- Lexicographic string comparison (by code point), as applied by the
dataframe engine to the date strings. -/
def charsLe : List Char → List Char → Bool
  | [], _ => true
  | _ :: _, [] => false
  | a :: as, b :: bs =>
    if a.toNat < b.toNat then true
    else if a.toNat = b.toNat then charsLe as bs
    else false

def strLe (a b : String) : Bool := charsLe a.data b.data

/-- The date-range predicate
`(df['date_publication'] >= '20220101') & (df['date_publication'] <= '20241231')`. -/
def rowPred (r : PRow) : Bool :=
  strLe "20220101" r.date_publication && strLe r.date_publication "20241231"

/-- Rewriter state: the lazily-opened writer (recording the schema it was
opened with) and the running row count. -/
structure RwState where
  writer : Option String
  total : Nat
deriving DecidableEq

/-- One loop iteration of `main`: filter the chunk; if non-empty, open
the writer on first use (with this chunk's schema) and append. -/
def rwStep (st : RwState) (ch : RGChunk) : RwState :=
  let f := ch.rows.filter rowPred
  if f.isEmpty then st
  else { writer := some (st.writer.getD ch.schema), total := st.total + f.length }

/-- The row-group loop of `main` over a source file. -/
def rewriteMain (chunks : List RGChunk) : RwState :=
  chunks.foldl rwStep ⟨none, 0⟩

/-! ## Concrete documents, rows and runs used by the theorems below -/

def mkLeaf (t : String) (txt : Option String) : XML := .mk t [] txt none []

def mkNode (t : String) (cs : List XML) : XML := .mk t [] none none cs

/-- A root element with no attributes at all. -/
def noIdRoot : XML := .mk "doc" [] none none []

/-- Two `classification-ipcr` text elements, the second with `text=None`. -/
def c6Root : XML := .mk "doc" [("id", "X"), ("doc-number", "1")] none none
  [mkNode "B500" [mkNode "B510EP"
    [mkNode "classification-ipcr" [mkLeaf "text" (some "A")],
     mkNode "classification-ipcr" [mkLeaf "text" none]]]]

/-- Two well-behaved `classification-ipcr` text elements. -/
def w6Root : XML := .mk "doc" [("id", "X"), ("doc-number", "7")] none none
  [mkNode "B500" [mkNode "B510EP"
    [mkNode "classification-ipcr" [mkLeaf "text" (some "A01B 1/00")],
     mkNode "classification-ipcr" [mkLeaf "text" (some "A01B 2/00")]]]]

/-- A representative with a non-empty name, no city, non-empty country. -/
def c9Root : XML := .mk "doc" [("id", "X"), ("doc-number", "1")] none none
  [mkNode "B700" [mkNode "B740" [mkNode "B741"
    [mkLeaf "snm" (some "A"), mkNode "adr" [mkLeaf "ctry" (some "C")]]]]]

/-- Representatives with a full triple and a name-only triple, and a
proprietor with no name. -/
def w9Root : XML := .mk "doc" [("id", "X"), ("doc-number", "2")] none none
  [mkNode "B700"
    [mkNode "B740"
      [mkNode "B741" [mkLeaf "snm" (some "Smith"),
                      mkNode "adr" [mkLeaf "city" (some "Munich"), mkLeaf "ctry" (some "DE")]],
       mkNode "B741" [mkLeaf "snm" (some "Jones")]],
     mkNode "B730"
      [mkNode "B731" [mkNode "adr" [mkLeaf "city" (some "Paris"), mkLeaf "ctry" (some "FR")]]]]]

/-- A minimal document passing the `doc_id`/`doc_number` gate. -/
def w3Root : XML := .mk "doc" [("id", "W"), ("doc-number", "9")] none none []

/-- 501 distinct record rows lacking the insert parameters: every flush
attempt fails, and the code retains the failed batch. -/
def c7Dicts : List Dict := (List.range 501).map (fun k => [("i", PVal.vInt k)])

def c7Run : LoopState := process_year (fun _ => true) (c7Dicts.map some)

/-- A model output row (two components, so the pooled result cannot be
the 1024-long zero vector). -/
def c4Row : List ℚ := [1, 1]

/-- A concrete embedding environment: the tokenizer encodes the empty
string to no tokens and anything else to one token, and the model encodes
every chunk to `c4Row`. -/
def c4Env : EmbedEnv where
  stopwords := ["no"]
  lemmatize := id
  encode := fun s => if s = "" then [] else [0]
  decode := fun _ => "chunk"
  modelEncode := fun cs => some (cs.map (fun _ => c4Row))

/-- An embedding environment for the chunking witness: four tokens per
non-empty text. -/
def w10Env : EmbedEnv where
  stopwords := []
  lemmatize := id
  encode := fun s => if s = "" then [] else [1, 2, 3, 4]
  decode := fun _ => "chunk"
  modelEncode := fun _ => some []

/-- A complete USPTO span used as a witness. -/
def w2Span : List Char :=
  "<?xml v?><!DOCTYPE d><us-patent-grant x>BODY</us-patent-grant>".data

/-- A truncated trailing fragment (no closing tag). -/
def w2Trunc : List Char := "<?xml q><!DOCTYPE e><us-patent-grant>cut off".data

/-- Rows sharing a `pub_ref_doc_number` value. -/
def w5Rows : List URec :=
  [[("pub_ref_doc_number", some "111"), ("title", some "first")],
   [("pub_ref_doc_number", some "222")],
   [("pub_ref_doc_number", some "111"), ("title", some "dup")]]

/-- Row groups in which no row matches the 2022-2024 date predicate. -/
def w8Chunks : List RGChunk :=
  [⟨"schemaA", [⟨"20100101", "old"⟩]⟩, ⟨"schemaB", []⟩]

/-! ### Sub-field accessors and the spec-side triple for C9 -/

/-- `el.findtext('snm','').strip()`. -/
def nmOf (el : XML) : String := pyStrip (findtextRel ["snm"] el "")

/-- `el.findtext('adr/city','').strip()`. -/
def cityOf (el : XML) : String := pyStrip (findtextRel ["adr", "city"] el "")

/-- `el.findtext('adr/ctry','').strip()`. -/
def ctryOf (el : XML) : String := pyStrip (findtextRel ["adr", "ctry"] el "")

/-- Modelled from the spec: a `"name, city, country"` triple "with empty
sub-fields omitted from the triple and trailing separators trimmed". -/
def tripleOmit (n c k : String) : String :=
  pyJoin ", " ([n, c, k].filter (fun s => !(s == "")))

/-- The triple as the code actually produces it: like `tripleOmit`,
except that an empty middle sub-field between two non-empty ones is kept
as an empty slot. -/
def tripleSpec (n c k : String) : String :=
  if n ≠ "" ∧ c = "" ∧ k ≠ "" then n ++ ", , " ++ k else tripleOmit n c k

/-- A sub-field value that does not begin or end with a comma or space
(automatic for non-degenerate stripped names/cities/countries). -/
def cleanEdge (s : String) : Prop :=
  s.data.head? ≠ some ',' ∧ s.data.head? ≠ some ' ' ∧
  s.data.getLast? ≠ some ',' ∧ s.data.getLast? ≠ some ' '

instance (s : String) : Decidable (cleanEdge s) := by
  unfold cleanEdge
  infer_instance

/-! # Theorems -/

/-! ### String and separator-counting helpers -/

theorem data_append (s t : String) : (s ++ t).data = s.data ++ t.data := by
  cases s; cases t; rfl

theorem sepCount_cons_cons (c1 c2 : Char) (rest : List Char) :
    sepCount (c1 :: c2 :: rest) =
      if c1 = ';' ∧ c2 = ' ' then sepCount rest + 1 else sepCount (c2 :: rest) := by
  rw [sepCount.eq_def]
  split
  · rename_i r heq
    cases heq
    simp
  · rename_i c r hexcl heq
    cases heq
    split
    · rename_i hc
      exact absurd (hexcl rest hc.1 (by rw [hc.2])) (by simp)
    · rfl
  · rename_i heq
    cases heq

theorem sepCount_sep_append (e t : List Char) :
    sepCount (e ++ ';' :: ' ' :: t) = sepCount e + 1 + sepCount t := by
  have H : ∀ n (e : List Char), e.length ≤ n → ∀ t,
      sepCount (e ++ ';' :: ' ' :: t) = sepCount e + 1 + sepCount t := by
    intro n
    induction n with
    | zero =>
      intro e he t
      match e with
      | [] => simp [sepCount]; omega
    | succ n ih =>
      intro e he t
      match e with
      | [] => simp [sepCount]; omega
      | [c] =>
        rw [List.cons_append, List.nil_append, sepCount_cons_cons]
        simp [sepCount]
        omega
      | c1 :: c2 :: e2 =>
        rw [List.cons_append, List.cons_append, sepCount_cons_cons, sepCount_cons_cons]
        by_cases hc : c1 = ';' ∧ c2 = ' '
        · rw [if_pos hc, if_pos hc]
          rw [ih e2 (by simp at he ⊢; omega) t]
          omega
        · rw [if_neg hc, if_neg hc]
          exact ih (c2 :: e2) (by simp at he ⊢; omega) t
  exact H e.length e (le_refl _) t

theorem sepCount_pyJoin (l : List String) (h : ∀ s ∈ l, sepCount s.data = 0) :
    sepCount (pyJoin "; " l).data = l.length - 1 := by
  induction l with
  | nil => simp [pyJoin, sepCount]
  | cons s rest ih =>
    match rest with
    | [] =>
      have := h s (by simp)
      simpa [pyJoin] using this
    | s2 :: r2 =>
      have hs : sepCount s.data = 0 := h s (by simp)
      have hrest : ∀ x ∈ s2 :: r2, sepCount x.data = 0 := fun x hx => h x (by simp [hx])
      show sepCount (s ++ "; " ++ pyJoin "; " (s2 :: r2)).data = _
      rw [data_append, data_append]
      have hsep : ("; " : String).data ++ (pyJoin "; " (s2 :: r2)).data =
          ';' :: ' ' :: (pyJoin "; " (s2 :: r2)).data := rfl
      rw [List.append_assoc, hsep, sepCount_sep_append, hs, ih hrest]
      simp
      omega

/-! ### `parse_xml` structure lemmas -/

theorem parse_xml_fields (root : XML) (r : Record) (h : parse_xml root = some r) :
    r.doc_id = pyStrip (attrGet root "id" "") ∧
    r.doc_number = digitsToNat (pyStrip (attrGet root "doc-number" "")) ∧
    r.ipc_classifications = ipcField root ∧
    r.representatives = representativesField root ∧
    r.proprietors = proprietorsField root := by
  unfold parse_xml at h
  simp only [] at h
  split at h
  · cases h
  · obtain ⟨ian, h1, h⟩ := Option.bind_eq_some.mp h
    obtain ⟨dp, h2, h⟩ := Option.bind_eq_some.mp h
    obtain ⟨df, h3, h⟩ := Option.bind_eq_some.mp h
    cases h
    exact ⟨rfl, rfl, rfl, rfl, rfl⟩

/-- C1: for every well-formed EPO XML document whose root `id` attribute
is missing or empty after stripping, or whose `doc-number` attribute is
missing, empty, or not all-digit, `parse_xml` returns `none`; conversely,
a returned record carries the stripped non-empty `id` as `doc_id` and the
integer value of the all-digit `doc-number` string as `doc_number`. -/
theorem C1_parse_xml_gate (root : XML) :
    (pyStrip (attrGet root "id" "") = "" ∨ pyStrip (attrGet root "doc-number" "") = "" ∨
        pyIsdigit (pyStrip (attrGet root "doc-number" "")) = false →
      parse_xml root = none) ∧
    (∀ r : Record, parse_xml root = some r →
      r.doc_id = pyStrip (attrGet root "id" "") ∧ r.doc_id ≠ "" ∧
      pyStrip (attrGet root "doc-number" "") ≠ "" ∧
      pyIsdigit (pyStrip (attrGet root "doc-number" "")) = true ∧
      r.doc_number = digitsToNat (pyStrip (attrGet root "doc-number" ""))) := by
  constructor
  · intro h
    unfold parse_xml
    simp only []
    rw [if_pos h]
  · intro r h
    have hfields := parse_xml_fields root r h
    unfold parse_xml at h
    simp only [] at h
    split at h
    · cases h
    · rename_i hgate
      push_neg at hgate
      obtain ⟨hA, hB, hC⟩ := hgate
      refine ⟨hfields.1, ?_, hB, ?_, hfields.2.1⟩
      · rw [hfields.1]; exact hA
      · cases hd : pyIsdigit (pyStrip (attrGet root "doc-number" ""))
        · exact absurd hd hC
        · rfl

/-- C1 witness: a root with no attributes is discarded. -/
theorem C1_parse_xml_gate_witness :
    pyStrip (attrGet noIdRoot "id" "") = "" ∧ parse_xml noIdRoot = none :=
  ⟨by decide, (C1_parse_xml_gate noIdRoot).1 (Or.inl (by decide))⟩

/-! ### C6: the `ipc_classifications` join -/

theorem filterMap_truthyStrip (els : List XML)
    (h : ∀ el ∈ els, el.text ≠ none ∧ el.text ≠ some "") :
    els.filterMap truthyStrip = els.map (fun el => pyStrip (el.text.getD "")) := by
  induction els with
  | nil => rfl
  | cons e rest ih =>
    obtain ⟨h1, h2⟩ := h e (by simp)
    rw [List.filterMap_cons, List.map_cons]
    cases he : e.text with
    | none => exact absurd he h1
    | some s =>
      have hs : s ≠ "" := by intro hseq; rw [hseq] at he; exact h2 he
      have ht : truthyStrip e = some (pyStrip s) := by
        simp [truthyStrip, he, hs]
      rw [ht]
      show pyStrip s :: List.filterMap truthyStrip rest =
        pyStrip ((some s).getD "") :: List.map (fun el => pyStrip (el.text.getD "")) rest
      rw [Option.getD_some, ih (fun x hx => h x (by simp [hx]))]

/-- C6 (amended): for every EPO document whose `classification-ipcr` text
elements all have non-`None`, non-empty text whose stripped value does not
itself contain `"; "`, the extracted `ipc_classifications` string is the
stripped texts joined in document order, and contains exactly N-1
occurrences of `"; "` for N text elements.  (Elements with missing or
empty text are skipped by the comprehension's `if el.text` filter, so the
unconditional claim fails — see the counterexample.) -/
theorem C6_ipc_join (root : XML) (r : Record) (h : parse_xml root = some r)
    (htext : ∀ el ∈ ipcEls root, el.text ≠ none ∧ el.text ≠ some "")
    (hsep : ∀ el ∈ ipcEls root, sepCount (pyStrip (el.text.getD "")).data = 0) :
    r.ipc_classifications =
      pyJoin "; " ((ipcEls root).map (fun el => pyStrip (el.text.getD ""))) ∧
    sepCount r.ipc_classifications.data = (ipcEls root).length - 1 := by
  have hf := (parse_xml_fields root r h).2.2.1
  have hmap := filterMap_truthyStrip (ipcEls root) htext
  constructor
  · rw [hf, ipcField, hmap]
  · rw [hf, ipcField, hmap, sepCount_pyJoin]
    · simp
    · intro s hs
      obtain ⟨el, hel, rfl⟩ := List.mem_map.mp hs
      exact hsep el hel

/-- C6 counterexample: a document with two `classification-ipcr` text
elements, the second having no text, yields `"A"` — zero occurrences of
`"; "`, not N-1 = 1. -/
theorem C6_ipc_join_cex :
    (ipcEls c6Root).length = 2 ∧
    (parse_xml c6Root).map Record.ipc_classifications = some "A" ∧
    ¬ sepCount "A".data = (ipcEls c6Root).length - 1 := by decide

/-- C6 witness: two well-formed IPC codes join with one separator. -/
theorem C6_ipc_join_witness :
    (∀ el ∈ ipcEls w6Root, el.text ≠ none ∧ el.text ≠ some "") ∧
    (parse_xml w6Root).map Record.ipc_classifications = some "A01B 1/00; A01B 2/00" ∧
    sepCount "A01B 1/00; A01B 2/00".data = (ipcEls w6Root).length - 1 := by
  have hsome : (parse_xml w6Root).isSome := by decide
  obtain ⟨r, hr⟩ := Option.isSome_iff_exists.mp hsome
  have hc := C6_ipc_join w6Root r hr (by decide) (by decide)
  have hval : r.ipc_classifications = "A01B 1/00; A01B 2/00" := by
    rw [hc.1]; decide
  refine ⟨by decide, ?_, ?_⟩
  · rw [hr, Option.map_some', hval]
  · have h2 := hc.2
    rwa [hval] at h2

/-! ### C3: the missing `date_publ` insert parameter -/

theorem toDict_keys (r : Record) : r.toDict.map Prod.fst =
    ["doc_id", "title_en", "title_de", "title_fr", "doc_number", "lang", "country",
     "abstract", "description", "claims", "ipc_classifications", "cpc_classifications",
     "international_application_number", "applicants", "inventors", "int_classifications",
     "date_publication", "year_publication", "date_filing", "year_filing",
     "priority_number", "priority_date", "representatives", "correction_code",
     "correction_description", "references_cited", "proprietors"] := rfl

theorem record_dict_no_params (r : Record) : dictHasParams r.toDict = false := by
  rw [dictHasParams, toDict_keys]
  decide

theorem tryFlush_fail (oracle : Nat → Bool) (st : LoopState) (d : Dict)
    (hd : d ∈ st.batch) (hfail : dictHasParams d = false) :
    tryFlush oracle st =
      { batch := st.batch, total := st.total, flushes := st.flushes ++ [(st.batch, false)] } := by
  unfold tryFlush
  have hall : st.batch.all dictHasParams = false :=
    List.all_eq_false.mpr ⟨d, hd, by simp [hfail]⟩
  rw [hall]
  simp

theorem processStep_pres (oracle : Nat → Bool) (st : LoopState) (i : Option Dict)
    (hi : ∀ d, i = some d → dictHasParams d = false)
    (h1 : st.total = 0) (h2 : ∀ d ∈ st.batch, dictHasParams d = false) :
    (processStep oracle st i).total = 0 ∧
    ∀ d ∈ (processStep oracle st i).batch, dictHasParams d = false := by
  cases i with
  | none => exact ⟨h1, h2⟩
  | some d =>
    have hd := hi d rfl
    have h2' : ∀ x ∈ st.batch ++ [d], dictHasParams x = false := by
      intro x hx
      rcases List.mem_append.mp hx with hmem | hmem
      · exact h2 x hmem
      · simp at hmem; subst hmem; exact hd
    unfold processStep
    simp only []
    split
    · rw [tryFlush_fail oracle _ d (by simp) hd]
      exact ⟨h1, h2'⟩
    · exact ⟨h1, h2'⟩

theorem foldl_pres (oracle : Nat → Bool) :
    ∀ (inputs : List (Option Dict)) (st : LoopState),
      (∀ i ∈ inputs, ∀ d, i = some d → dictHasParams d = false) →
      st.total = 0 → (∀ d ∈ st.batch, dictHasParams d = false) →
      (inputs.foldl (processStep oracle) st).total = 0 ∧
      ∀ d ∈ (inputs.foldl (processStep oracle) st).batch, dictHasParams d = false := by
  intro inputs
  induction inputs with
  | nil => intro st _ h1 h2; exact ⟨h1, h2⟩
  | cons i rest ih =>
    intro st hin h1 h2
    rw [List.foldl_cons]
    have hstep := processStep_pres oracle st i (fun d hd => hin i (by simp) d hd) h1 h2
    exact ih (processStep oracle st i) (fun x hx d hd => hin x (by simp [hx]) d hd)
      hstep.1 hstep.2

/-- C3: the record dictionaries built by `parse_xml` lack the `date_publ`
key, yet the parameterized insert statement requires a `date_publ`
parameter for every row; hence every batch write of `process_year` over
records from this `parse_xml` raises and is rolled back, and no record is
ever inserted — the run's total is 0 for every document stream and every
database behaviour. -/
theorem C3_missing_date_publ (docs : List XML) (oracle : Nat → Bool) :
    "date_publ" ∈ insertQueryParams ∧
    (∀ root r, parse_xml root = some r → "date_publ" ∉ r.toDict.map Prod.fst) ∧
    (process_year oracle (docs.map (fun d => (parse_xml d).map Record.toDict))).total = 0 := by
  refine ⟨by decide, ?_, ?_⟩
  · intro root r _
    rw [toDict_keys]
    decide
  · have hin : ∀ i ∈ docs.map (fun d => (parse_xml d).map Record.toDict),
        ∀ d, i = some d → dictHasParams d = false := by
      intro i hi d hd
      obtain ⟨x, _, rfl⟩ := List.mem_map.mp hi
      obtain ⟨r, _, rfl⟩ := Option.map_eq_some'.mp hd
      exact record_dict_no_params r
    have hloop := foldl_pres oracle (docs.map (fun d => (parse_xml d).map Record.toDict))
      ⟨[], 0, []⟩ hin rfl (by simp)
    unfold process_year
    simp only []
    split
    · exact hloop.1
    · rename_i hne
      have hne' : ((docs.map (fun d => (parse_xml d).map Record.toDict)).foldl
          (processStep oracle) ⟨[], 0, []⟩).batch ≠ [] := by
        simpa [List.isEmpty_iff] using hne
      obtain ⟨d, hd⟩ := List.exists_mem_of_ne_nil _ hne'
      rw [tryFlush_fail oracle _ d hd (hloop.2 d hd)]
      exact hloop.1

/-- C3 witness: a one-document stream inserts nothing. -/
theorem C3_missing_date_publ_witness :
    (process_year (fun _ => true)
      ([w3Root].map (fun d => (parse_xml d).map Record.toDict))).total = 0 :=
  (C3_missing_date_publ [w3Root] (fun _ => true)).2.2

/-! ### C8: the chunked columnar rewriter -/

theorem rewrite_foldl (chunks : List RGChunk) (st : RwState) :
    ((chunks.foldl rwStep st).writer =
      (st.writer.or ((chunks.find? (fun ch => !(ch.rows.filter rowPred).isEmpty)).map RGChunk.schema))) ∧
    (chunks.foldl rwStep st).total =
      st.total + (chunks.map (fun ch => (ch.rows.filter rowPred).length)).sum := by
  induction chunks generalizing st with
  | nil => simp
  | cons ch rest ih =>
    rw [List.foldl_cons]
    cases hf : (ch.rows.filter rowPred).isEmpty with
    | true =>
      have hstep_eq : rwStep st ch = st := by unfold rwStep; simp only []; rw [if_pos hf]
      rw [hstep_eq]
      refine ⟨?_, ?_⟩
      · rw [(ih st).1, List.find?_cons_of_neg _ (by simp [hf])]
      · rw [(ih st).2, List.map_cons, List.sum_cons]
        have : (ch.rows.filter rowPred).length = 0 := by
          simpa [List.isEmpty_iff, List.length_eq_zero] using hf
        omega
    | false =>
      have hstep_eq : rwStep st ch =
          { writer := some (st.writer.getD ch.schema),
            total := st.total + (ch.rows.filter rowPred).length } := by
        unfold rwStep; simp only []; rw [if_neg (by simp [hf])]
      rw [hstep_eq]
      refine ⟨?_, ?_⟩
      · rw [(ih _).1, List.find?_cons_of_pos _ (by simp [hf])]
        cases st.writer <;> simp
      · rw [(ih _).2, List.map_cons, List.sum_cons]
        simp
        omega

/-- C8: in the chunked rewriter, the writer is opened lazily on the first
row-group chunk with a non-empty filtered result, with that chunk's
schema; when no row group matches the date predicate, no writer (hence no
output file) is ever created and the run reports zero rows written
instead of raising. -/
theorem C8_lazy_writer (chunks : List RGChunk) :
    (rewriteMain chunks).writer =
      ((chunks.find? (fun ch => !(ch.rows.filter rowPred).isEmpty)).map RGChunk.schema) ∧
    (rewriteMain chunks).total =
      (chunks.map (fun ch => (ch.rows.filter rowPred).length)).sum ∧
    ((∀ ch ∈ chunks, (ch.rows.filter rowPred).isEmpty = true) →
      (rewriteMain chunks).writer = none ∧ (rewriteMain chunks).total = 0) := by
  have h := rewrite_foldl chunks ⟨none, 0⟩
  refine ⟨by simpa using h.1, by simpa using h.2, ?_⟩
  intro hall
  constructor
  · rw [show (rewriteMain chunks).writer = _ from by simpa using h.1]
    rw [List.find?_eq_none.mpr (fun ch hch => by simp [hall ch hch])]
    rfl
  · rw [show (rewriteMain chunks).total = _ from by simpa using h.2]
    rw [List.sum_eq_zero]
    intro x hx
    obtain ⟨ch, hch, rfl⟩ := List.mem_map.mp hx
    simpa [List.isEmpty_iff, List.length_eq_zero] using hall ch hch

/-- C8 witness: a file whose row groups contain no 2022-2024 rows
produces no writer and zero rows. -/
theorem C8_lazy_writer_witness :
    (∀ ch ∈ w8Chunks, (ch.rows.filter rowPred).isEmpty = true) ∧
    (rewriteMain w8Chunks).writer = none ∧ (rewriteMain w8Chunks).total = 0 :=
  ⟨by decide, (C8_lazy_writer w8Chunks).2.2 (by decide)⟩

/-! ### C5: deduplication by `pub_ref_doc_number` -/

theorem dedupSpec_nil : dedupSpec [] = [] := by rw [dedupSpec]

theorem dedupSpec_cons (r : URec) (rest : List URec) :
    dedupSpec (r :: rest) = r :: dedupSpec (rest.filter (fun x => !(colVal x == colVal r))) := by
  rw [dedupSpec]

theorem dropDupsGo_spec : ∀ (l : List URec) (seen : List (Option String)),
    dropDupsGo seen l = dedupSpec (l.filter (fun x => !(seen.contains (colVal x)))) := by
  have H : ∀ n (l : List URec), l.length ≤ n → ∀ seen,
      dropDupsGo seen l = dedupSpec (l.filter (fun x => !(seen.contains (colVal x)))) := by
    intro n
    induction n with
    | zero =>
      intro l hl seen
      match l with
      | [] => rw [dropDupsGo, List.filter_nil, dedupSpec_nil]
    | succ n ih =>
      intro l hl seen
      match l with
      | [] => rw [dropDupsGo, List.filter_nil, dedupSpec_nil]
      | r :: rest =>
        rw [dropDupsGo, List.filter_cons]
        by_cases hc : seen.contains (colVal r) = true
        · rw [if_pos hc, if_neg (by rw [hc]; decide)]
          exact ih rest (by simp at hl; omega) seen
        · have hc' : seen.contains (colVal r) = false := by
            cases hb : seen.contains (colVal r)
            · rfl
            · exact absurd hb hc
          rw [if_neg hc, if_pos (by rw [hc']; decide), dedupSpec_cons]
          rw [List.filter_filter]
          rw [ih rest (by simp at hl; omega) (colVal r :: seen)]
          congr 2
          apply List.filter_congr
          intro x _
          rw [List.contains_cons]
          simp [Bool.not_or]
  intro l seen
  exact H l.length l (le_refl _) seen

theorem dedupSpec_sublist (l : List URec) : (dedupSpec l).Sublist l := by
  induction l using dedupSpec.induct with
  | case1 => simp [dedupSpec]
  | case2 r rest ih =>
    rw [dedupSpec]
    exact List.Sublist.cons₂ r (ih.trans (List.filter_sublist rest))

theorem dedupSpec_nodup (l : List URec) : ((dedupSpec l).map colVal).Nodup := by
  induction l using dedupSpec.induct with
  | case1 => simp [dedupSpec]
  | case2 r rest ih =>
    rw [dedupSpec, List.map_cons]
    refine List.nodup_cons.mpr ⟨?_, ih⟩
    intro hmem
    obtain ⟨x, hx, hxc⟩ := List.mem_map.mp hmem
    have hx' := (dedupSpec_sublist _).subset hx
    have := List.of_mem_filter hx'
    rw [hxc] at this
    simp at this

theorem find?_filter_of_imp (p q : URec → Bool) (l : List URec)
    (himp : ∀ x, p x = true → q x = true) :
    (l.filter q).find? p = l.find? p := by
  induction l with
  | nil => rfl
  | cons x xs ih =>
    rw [List.filter_cons]
    by_cases hq : q x = true
    · rw [if_pos hq]
      by_cases hp : p x = true
      · rw [List.find?_cons_of_pos _ hp, List.find?_cons_of_pos _ hp]
      · rw [List.find?_cons_of_neg _ hp, List.find?_cons_of_neg _ hp]
        exact ih
    · have hp : ¬ p x = true := fun hpx => hq (himp x hpx)
      rw [if_neg hq, ih, List.find?_cons_of_neg _ hp]

theorem dedupSpec_first (l : List URec) :
    ∀ r' ∈ dedupSpec l, l.find? (fun x => colVal x == colVal r') = some r' := by
  induction l using dedupSpec.induct with
  | case1 => simp [dedupSpec]
  | case2 r rest ih =>
    intro r' hr'
    rw [dedupSpec] at hr'
    rcases List.mem_cons.mp hr' with h | h
    · subst h
      exact List.find?_cons_of_pos _ (by simp)
    · have hmem := (dedupSpec_sublist _).subset h
      have hne : (colVal r == colVal r') = false := by
        have := List.of_mem_filter hmem
        cases hb : colVal r == colVal r'
        · rfl
        · rw [show colVal r' = colVal r from (beq_iff_eq.mp hb).symm] at this
          simp at this
      rw [List.find?_cons_of_neg _ (by simp [hne])]
      rw [← find?_filter_of_imp (fun x => colVal x == colVal r')
        (fun x => !(colVal x == colVal r)) rest ?_]
      · exact ih r' h
      · intro x hx
        have hxr : colVal x = colVal r' := beq_iff_eq.mp hx
        simp [hxr]
        intro hcon
        rw [hcon] at hne
        simp at hne

/-- C5: when at least one accumulated record carries the
`pub_ref_doc_number` field, the dedup step keeps, for each value of that
field, exactly the first record in original order, and the survivors keep
their original stable order (the result equals the first-occurrence
dedup, is a sublist of the input, has pairwise-distinct key values, and
each survivor is the first input record with its key value). -/
theorem C5_dedup (l : List URec) (h : hasPubRefCol l = true) :
    dedupRecords l = dedupSpec l ∧
    (dedupRecords l).Sublist l ∧
    ((dedupRecords l).map colVal).Nodup ∧
    (∀ r' ∈ dedupRecords l, l.find? (fun x => colVal x == colVal r') = some r') := by
  have heq : dedupRecords l = dedupSpec l := by
    unfold dedupRecords
    rw [if_pos h, dropDupsGo_spec]
    congr 1
    simp
  refine ⟨heq, heq ▸ dedupSpec_sublist l, heq ▸ dedupSpec_nodup l, ?_⟩
  intro r' hr'
  exact dedupSpec_first l r' (heq ▸ hr')

/-- C5 witness: two rows share doc-number 111; one survivor per value,
order preserved. -/
theorem C5_dedup_witness :
    hasPubRefCol w5Rows = true ∧ ((dedupRecords w5Rows).map colVal).Nodup ∧
    (dedupRecords w5Rows).Sublist w5Rows :=
  ⟨by decide, (C5_dedup w5Rows (by decide)).2.2.1, (C5_dedup w5Rows (by decide)).2.1⟩

/-! ### C9: the representatives/proprietors triples -/

theorem data_eq_nil_iff (s : String) : s.data = [] ↔ s = "" := by
  constructor
  · intro h
    cases s
    cases h
    rfl
  · rintro rfl
    rfl

theorem dCS_cons_clean (ch : Char) (t : List Char) (h : ¬ ch ∈ commaSpace) :
    (ch :: t).dropWhile (· ∈ commaSpace) = ch :: t := by
  rw [List.dropWhile_cons, if_neg (by simpa using h)]

theorem dCS_sep (t : List Char) :
    (',' :: ' ' :: t).dropWhile (· ∈ commaSpace) = t.dropWhile (· ∈ commaSpace) := by
  rw [List.dropWhile_cons, if_pos (by decide), List.dropWhile_cons, if_pos (by decide)]

theorem gCS_nil : (([] : List Char).reverse.dropWhile (· ∈ commaSpace)).reverse = [] := rfl

theorem gCS_append_clean (x y : List Char) (hy : y ≠ [])
    (h : ∀ ch, y.getLast? = some ch → ¬ ch ∈ commaSpace) :
    (((x ++ y).reverse.dropWhile (· ∈ commaSpace)).reverse) = x ++ y := by
  rw [List.reverse_append]
  obtain ⟨ch, t, hrev⟩ : ∃ ch t, y.reverse = ch :: t := by
    cases hr : y.reverse with
    | nil => exact absurd (by simpa using congrArg List.reverse hr) hy
    | cons a b => exact ⟨a, b, rfl⟩
  have hch : y.getLast? = some ch := by
    rw [← List.head?_reverse, hrev]
    rfl
  rw [hrev, List.cons_append, dCS_cons_clean ch _ (h ch hch)]
  rw [← List.cons_append, ← hrev, ← List.reverse_append]
  exact List.reverse_reverse _

theorem gCS_sep (x : List Char) :
    (((x ++ [',', ' ']).reverse.dropWhile (· ∈ commaSpace)).reverse) =
      ((x.reverse.dropWhile (· ∈ commaSpace)).reverse) := by
  rw [List.reverse_append]
  show (((' ' :: ',' :: x.reverse).dropWhile (· ∈ commaSpace)).reverse) = _
  rw [List.dropWhile_cons, if_pos (by decide), List.dropWhile_cons, if_pos (by decide)]

theorem string_data_ext (s t : String) (h : s.data = t.data) : s = t := by
  cases s; cases t; cases h; rfl

theorem cleanEdge_head (s : String) (h : cleanEdge s) (hne : s ≠ "") :
    ∃ a t, s.data = a :: t ∧ ¬ a ∈ commaSpace := by
  cases hx : s.data with
  | nil => exact absurd ((data_eq_nil_iff s).mp hx) hne
  | cons a t =>
    refine ⟨a, t, rfl, ?_⟩
    intro hmem
    have hh : s.data.head? = some a := by rw [hx]; rfl
    rcases (by simpa [commaSpace] using hmem : a = ',' ∨ a = ' ') with rfl | rfl
    · exact h.1 hh
    · exact h.2.1 hh

theorem cleanEdge_last (s : String) (h : cleanEdge s) :
    ∀ ch, s.data.getLast? = some ch → ¬ ch ∈ commaSpace := by
  intro ch hch hmem
  rcases (by simpa [commaSpace] using hmem : ch = ',' ∨ ch = ' ') with rfl | rfl
  · exact h.2.2.1 hch
  · exact h.2.2.2 hch

theorem dCS_clean_append (s : String) (rest : List Char) (h : cleanEdge s) (hne : s ≠ "") :
    (s.data ++ rest).dropWhile (· ∈ commaSpace) = s.data ++ rest := by
  obtain ⟨a, t, hd, ha⟩ := cleanEdge_head s h hne
  rw [hd, List.cons_append, dCS_cons_clean _ _ ha]

theorem dCS_clean (s : String) (h : cleanEdge s) (hne : s ≠ "") :
    s.data.dropWhile (· ∈ commaSpace) = s.data := by
  have := dCS_clean_append s [] h hne
  simpa using this

theorem gCS_clean_append (x : List Char) (s : String) (h : cleanEdge s) (hne : s ≠ "") :
    (((x ++ s.data).reverse.dropWhile (· ∈ commaSpace)).reverse) = x ++ s.data :=
  gCS_append_clean x s.data (fun hc => hne ((data_eq_nil_iff s).mp hc)) (cleanEdge_last s h)

theorem gCS_clean (s : String) (h : cleanEdge s) (hne : s ≠ "") :
    ((s.data.reverse.dropWhile (· ∈ commaSpace)).reverse) = s.data := by
  have := gCS_clean_append [] s h hne
  simpa using this

theorem stripCS_triple (n c k : String) (hn : cleanEdge n) (hc : cleanEdge c) (hk : cleanEdge k) :
    pyStripCS (n ++ ", " ++ c ++ ", " ++ k) = tripleSpec n c k := by
  apply string_data_ext
  have hsep : (", " : String).data = [',', ' '] := rfl
  have hdata : (n ++ ", " ++ c ++ ", " ++ k).data =
      n.data ++ ',' :: ' ' :: (c.data ++ ',' :: ' ' :: k.data) := by
    simp [data_append, hsep]
  show (((n ++ ", " ++ c ++ ", " ++ k).data.dropWhile (· ∈ commaSpace)).reverse.dropWhile
      (· ∈ commaSpace)).reverse = (tripleSpec n c k).data
  rw [hdata]
  by_cases hn0 : n = ""
  · have hnd : n.data = [] := (data_eq_nil_iff n).mpr hn0
    rw [hnd, List.nil_append, dCS_sep]
    by_cases hc0 : c = ""
    · have hcd : c.data = [] := (data_eq_nil_iff c).mpr hc0
      rw [hcd, List.nil_append, dCS_sep]
      by_cases hk0 : k = ""
      · have hkd : k.data = [] := (data_eq_nil_iff k).mpr hk0
        rw [hkd]
        simp [tripleSpec, tripleOmit, pyJoin, hn0, hc0, hk0]
      · rw [dCS_clean k hk hk0, gCS_clean k hk hk0]
        have hkb : (k == "") = false := beq_eq_false_iff_ne.mpr hk0
        simp [tripleSpec, tripleOmit, pyJoin, List.filter_cons, hn0, hc0, hk0, hkb]
    · have hcb : (c == "") = false := beq_eq_false_iff_ne.mpr hc0
      rw [dCS_clean_append c _ hc hc0]
      by_cases hk0 : k = ""
      · have hkd : k.data = [] := (data_eq_nil_iff k).mpr hk0
        rw [hkd]
        have hstep : c.data ++ ',' :: ' ' :: ([] : List Char) = c.data ++ [',', ' '] := rfl
        rw [hstep, gCS_sep, gCS_clean c hc hc0]
        simp [tripleSpec, tripleOmit, pyJoin, List.filter_cons, hn0, hc0, hk0, hcb]
      · have hkb : (k == "") = false := beq_eq_false_iff_ne.mpr hk0
        have hgrp : c.data ++ ',' :: ' ' :: k.data = (c.data ++ [',', ' ']) ++ k.data := by
          simp
        rw [hgrp, gCS_clean_append _ k hk hk0]
        simp [tripleSpec, tripleOmit, pyJoin, List.filter_cons, hn0, hc0, hk0, hcb, hkb,
          data_append, hsep]
  · have hnb : (n == "") = false := beq_eq_false_iff_ne.mpr hn0
    rw [dCS_clean_append n _ hn hn0]
    by_cases hc0 : c = ""
    · have hcd : c.data = [] := (data_eq_nil_iff c).mpr hc0
      rw [hcd, List.nil_append]
      by_cases hk0 : k = ""
      · have hkd : k.data = [] := (data_eq_nil_iff k).mpr hk0
        rw [hkd]
        have hgrp : n.data ++ ',' :: ' ' :: ',' :: ' ' :: ([] : List Char) =
            (n.data ++ [',', ' ']) ++ [',', ' '] := by simp
        rw [hgrp, gCS_sep, gCS_sep, gCS_clean n hn hn0]
        simp [tripleSpec, tripleOmit, pyJoin, List.filter_cons, hn0, hc0, hk0, hnb]
      · have hkb : (k == "") = false := beq_eq_false_iff_ne.mpr hk0
        have hgrp : n.data ++ ',' :: ' ' :: ',' :: ' ' :: k.data =
            (n.data ++ [',', ' ', ',', ' ']) ++ k.data := by simp
        rw [hgrp, gCS_clean_append _ k hk hk0]
        have hmid : (tripleSpec n c k).data = n.data ++ [',', ' ', ',', ' '] ++ k.data := by
          rw [tripleSpec, if_pos ⟨hn0, hc0, hk0⟩]
          simp [data_append]
        rw [hmid]
    · have hcb : (c == "") = false := beq_eq_false_iff_ne.mpr hc0
      by_cases hk0 : k = ""
      · have hkd : k.data = [] := (data_eq_nil_iff k).mpr hk0
        rw [hkd]
        have hgrp : n.data ++ ',' :: ' ' :: (c.data ++ ',' :: ' ' :: ([] : List Char)) =
            ((n.data ++ [',', ' ']) ++ c.data) ++ [',', ' '] := by simp
        rw [hgrp, gCS_sep, gCS_clean_append _ c hc hc0]
        simp [tripleSpec, tripleOmit, pyJoin, List.filter_cons, hn0, hc0, hk0, hnb, hcb,
          data_append, hsep]
      · have hkb : (k == "") = false := beq_eq_false_iff_ne.mpr hk0
        have hgrp : n.data ++ ',' :: ' ' :: (c.data ++ ',' :: ' ' :: k.data) =
            ((n.data ++ [',', ' '] ++ c.data) ++ [',', ' ']) ++ k.data := by simp
        rw [hgrp, gCS_clean_append _ k hk hk0]
        simp [tripleSpec, tripleOmit, pyJoin, List.filter_cons, hn0, hc0, hk0, hnb, hcb, hkb,
          data_append, hsep]

/-- C9 (amended): each `representatives`/`proprietors` entry is the
`"name, city, country"` join stripped of leading and trailing `,`/space
characters; for sub-field values that do not themselves begin or end in a
comma this omits empty leading and trailing sub-fields, but an empty
middle sub-field between two non-empty ones is KEPT as an empty slot
(`"name, , country"`), unlike the claim's "empty sub-fields omitted";
entries are joined with `"; "` in document order. -/
theorem C9_triples (root : XML) (r : Record) (h : parse_xml root = some r)
    (hrep : ∀ el ∈ b741Els root, cleanEdge (nmOf el) ∧ cleanEdge (cityOf el) ∧ cleanEdge (ctryOf el))
    (hprop : ∀ el ∈ b731Els root, cleanEdge (nmOf el) ∧ cleanEdge (cityOf el) ∧ cleanEdge (ctryOf el)) :
    r.representatives =
      pyJoin "; " ((b741Els root).map (fun el => tripleSpec (nmOf el) (cityOf el) (ctryOf el))) ∧
    r.proprietors =
      pyJoin "; " ((b731Els root).map (fun el => tripleSpec (nmOf el) (cityOf el) (ctryOf el))) := by
  have hf := parse_xml_fields root r h
  constructor
  · rw [hf.2.2.2.1, representativesField]
    congr 1
    apply List.map_congr_left
    intro el hel
    obtain ⟨h1, h2, h3⟩ := hrep el hel
    exact stripCS_triple _ _ _ h1 h2 h3
  · rw [hf.2.2.2.2, proprietorsField]
    congr 1
    apply List.map_congr_left
    intro el hel
    obtain ⟨h1, h2, h3⟩ := hprop el hel
    exact stripCS_triple _ _ _ h1 h2 h3

/-- C9 counterexample: a representative with non-empty name, empty city,
non-empty country yields `"A, , C"`, not the `"A, C"` that omitting empty
sub-fields would give. -/
theorem C9_triples_cex :
    (parse_xml c9Root).map Record.representatives = some "A, , C" ∧
    pyJoin "; " ((b741Els c9Root).map (fun el => tripleOmit (nmOf el) (cityOf el) (ctryOf el))) =
      "A, C" ∧
    ¬ (parse_xml c9Root).map Record.representatives =
      some (pyJoin "; " ((b741Els c9Root).map
        (fun el => tripleOmit (nmOf el) (cityOf el) (ctryOf el)))) := by
  decide

/-- C9 witness: a full triple, a name-only triple and a nameless
proprietor triple. -/
theorem C9_triples_witness :
    (∀ el ∈ b741Els w9Root, cleanEdge (nmOf el) ∧ cleanEdge (cityOf el) ∧ cleanEdge (ctryOf el)) ∧
    (parse_xml w9Root).map Record.representatives = some "Smith, Munich, DE; Jones" ∧
    (parse_xml w9Root).map Record.proprietors = some "Paris, FR" := by
  have hsome : (parse_xml w9Root).isSome := by decide
  obtain ⟨r, hr⟩ := Option.isSome_iff_exists.mp hsome
  have hc := C9_triples w9Root r hr (by decide) (by decide)
  have h1 : r.representatives = "Smith, Munich, DE; Jones" := by rw [hc.1]; decide
  have h2 : r.proprietors = "Paris, FR" := by rw [hc.2]; decide
  exact ⟨by decide, by rw [hr, Option.map_some', h1], by rw [hr, Option.map_some', h2]⟩

/-! ### C7: batch flushing in `process_year` -/

theorem tryFlush_inv (oracle : Nat → Bool) (st : LoopState)
    (h : st.total = (successFlushed st).length) :
    (tryFlush oracle st).total = (successFlushed (tryFlush oracle st)).length ∧
    successFlushed (tryFlush oracle st) ++ (tryFlush oracle st).batch =
      successFlushed st ++ st.batch := by
  unfold tryFlush
  split
  · constructor
    · simp [successFlushed, List.filter_append, h]
    · simp [successFlushed, List.filter_append]
  · constructor
    · simp [successFlushed, List.filter_append, h]
    · simp [successFlushed, List.filter_append]

theorem processStep_inv (oracle : Nat → Bool) (st : LoopState) (i : Option Dict)
    (h : st.total = (successFlushed st).length) :
    (processStep oracle st i).total = (successFlushed (processStep oracle st i)).length ∧
    successFlushed (processStep oracle st i) ++ (processStep oracle st i).batch =
      (successFlushed st ++ st.batch) ++ i.toList := by
  cases i with
  | none => exact ⟨h, by simp [processStep]⟩
  | some d =>
    unfold processStep
    simp only []
    split
    · have hstep := tryFlush_inv oracle { st with batch := st.batch ++ [d] } (by simpa [successFlushed] using h)
      refine ⟨hstep.1, ?_⟩
      rw [hstep.2]
      simp [successFlushed]
    · constructor
      · simpa [successFlushed] using h
      · simp [successFlushed]

theorem foldl_inv (oracle : Nat → Bool) :
    ∀ (inputs : List (Option Dict)) (st : LoopState),
      st.total = (successFlushed st).length →
      (inputs.foldl (processStep oracle) st).total =
        (successFlushed (inputs.foldl (processStep oracle) st)).length ∧
      successFlushed (inputs.foldl (processStep oracle) st) ++
          (inputs.foldl (processStep oracle) st).batch =
        (successFlushed st ++ st.batch) ++ inputs.filterMap id := by
  intro inputs
  induction inputs with
  | nil => intro st h; exact ⟨h, by simp⟩
  | cons i rest ih =>
    intro st h
    rw [List.foldl_cons]
    have hstep := processStep_inv oracle st i h
    have hrest := ih (processStep oracle st i) hstep.1
    refine ⟨hrest.1, ?_⟩
    rw [hrest.2, hstep.2]
    cases i with
    | none => simp
    | some d => simp

/-- C7 (amended): in `process_year`, a failed batch insert is rolled back
— the inserted total counts exactly the records of successful flush
attempts — and the loop keeps consuming subsequent records; however the
failed batch is NOT cleared, so its records are retried inside later,
larger flush attempts (the successful flushes plus the final retained
batch partition the whole record stream); the final non-empty partial
batch always gets a flush attempt regardless of its size. -/
theorem C7_batches (oracle : Nat → Bool) (inputs : List (Option Dict)) :
    (process_year oracle inputs).total =
      (successFlushed (process_year oracle inputs)).length ∧
    successFlushed (process_year oracle inputs) ++ (process_year oracle inputs).batch =
      inputs.filterMap id ∧
    ((process_year oracle inputs).batch = [] ∨
      (process_year oracle inputs).flushes.getLast? =
        some ((process_year oracle inputs).batch, false)) := by
  have hloop := foldl_inv oracle inputs ⟨[], 0, []⟩ (by simp [successFlushed])
  unfold process_year
  simp only []
  split
  · rename_i hempty
    refine ⟨hloop.1, ?_, Or.inl (by simpa [List.isEmpty_iff] using hempty)⟩
    simpa [successFlushed] using hloop.2
  · rename_i hne
    set st := inputs.foldl (processStep oracle) ⟨[], 0, []⟩ with hst
    have htf := tryFlush_inv oracle st hloop.1
    refine ⟨htf.1, ?_, ?_⟩
    · rw [htf.2]
      simpa [successFlushed] using hloop.2
    · unfold tryFlush
      split
      · exact Or.inl rfl
      · exact Or.inr (by simp)

theorem c7_phaseA (oracle : Nat → Bool) : ∀ (ds : List Dict) (st : LoopState),
    st.batch.length + ds.length < batch_size →
    (ds.map some).foldl (processStep oracle) st = { st with batch := st.batch ++ ds } := by
  intro ds
  induction ds with
  | nil => intro st _; simp
  | cons d rest ih =>
    intro st h
    rw [List.map_cons, List.foldl_cons]
    have hstep : processStep oracle st (some d) = { st with batch := st.batch ++ [d] } := by
      unfold processStep
      simp only []
      rw [if_neg (by simp at h ⊢; omega)]
    rw [hstep, ih _ (by simp at h ⊢; omega)]
    simp

/-- C7 counterexample: with 501 rows whose dictionaries all make the
insert raise, the first flush attempt (500 rows) fails and is retained,
and its first record reappears in the very next 501-row flush attempt —
sibling batches are not disjoint from a failed batch, and the total
stays 0. -/
theorem C7_batches_cex :
    c7Run.flushes.map (fun f => (f.1.length, f.2)) =
      [(500, false), (501, false), (501, false)] ∧
    [("i", PVal.vInt 0)] ∈ (c7Run.flushes.headD ([], false)).1 ∧
    [("i", PVal.vInt 0)] ∈ ((c7Run.flushes.drop 1).headD ([], false)).1 ∧
    c7Run.total = 0 := by
  have hsplit : c7Dicts =
      ((List.range 499).map (fun k => [("i", PVal.vInt k)])) ++
        [[("i", PVal.vInt 499)], [("i", PVal.vInt 500)]] := by
    show (List.range 501).map _ = _
    rw [show (501 : Nat) = 500 + 1 from rfl, List.range_succ,
      show (500 : Nat) = 499 + 1 from rfl, List.range_succ]
    simp
  set A : List Dict := (List.range 499).map (fun k => [("i", PVal.vInt k)]) with hA
  have hlenA : A.length = 499 := by simp [hA]
  have hd0 : [("i", PVal.vInt 0)] ∈ A := by
    rw [hA]
    exact List.mem_map.mpr ⟨0, List.mem_range.mpr (by omega), rfl⟩
  have hd0fail : dictHasParams [("i", PVal.vInt 0)] = false := by decide
  have hkey : c7Run = LoopState.mk ((A ++ [[("i", PVal.vInt 499)]]) ++ [[("i", PVal.vInt 500)]]) 0
      [(A ++ [[("i", PVal.vInt 499)]], false),
       ((A ++ [[("i", PVal.vInt 499)]]) ++ [[("i", PVal.vInt 500)]], false),
       ((A ++ [[("i", PVal.vInt 499)]]) ++ [[("i", PVal.vInt 500)]], false)] := by
    show process_year (fun _ => true) (c7Dicts.map some) = _
    rw [hsplit]
    unfold process_year
    simp only []
    rw [List.map_append, List.foldl_append]
    rw [c7_phaseA (fun _ => true) A ⟨[], 0, []⟩ (by rw [hlenA]; decide)]
    rw [show (([[("i", PVal.vInt 499)], [("i", PVal.vInt 500)]] : List Dict).map some) =
      [some [("i", PVal.vInt 499)], some [("i", PVal.vInt 500)]] from rfl]
    rw [List.foldl_cons, List.foldl_cons, List.foldl_nil]
    have hstep1 : processStep (fun _ => true) (LoopState.mk ([] ++ A) 0 [])
        (some [("i", PVal.vInt 499)]) =
        LoopState.mk (A ++ [[("i", PVal.vInt 499)]]) 0
          [(A ++ [[("i", PVal.vInt 499)]], false)] := by
      unfold processStep
      simp only []
      rw [if_pos (by simp [hlenA, batch_size])]
      rw [tryFlush_fail _ _ [("i", PVal.vInt 0)] (by simp [hd0]) hd0fail]
      simp
    rw [hstep1]
    have hstep2 : processStep (fun _ => true)
        (LoopState.mk (A ++ [[("i", PVal.vInt 499)]]) 0
          [(A ++ [[("i", PVal.vInt 499)]], false)])
        (some [("i", PVal.vInt 500)]) =
        LoopState.mk ((A ++ [[("i", PVal.vInt 499)]]) ++ [[("i", PVal.vInt 500)]]) 0
          [(A ++ [[("i", PVal.vInt 499)]], false),
           ((A ++ [[("i", PVal.vInt 499)]]) ++ [[("i", PVal.vInt 500)]], false)] := by
      unfold processStep
      simp only []
      rw [if_pos (by simp [hlenA, batch_size])]
      rw [tryFlush_fail _ _ [("i", PVal.vInt 0)] (by simp [hd0]) hd0fail]
      simp
    rw [hstep2]
    rw [if_neg (by simp)]
    rw [tryFlush_fail _ _ [("i", PVal.vInt 0)] (by simp [hd0]) hd0fail]
    rfl
  rw [hkey]
  refine ⟨by simp [hlenA], by simp [hd0], by simp [hd0], rfl⟩

/-- C7 witness: a single well-keyed record flows through unflushed until
the final batch. -/
theorem C7_batches_witness :
    successFlushed (process_year (fun _ => true) [some [("doc_id", PVal.vStr "x")]]) ++
      (process_year (fun _ => true) [some [("doc_id", PVal.vStr "x")]]).batch =
      [[("doc_id", PVal.vStr "x")]] :=
  ((C7_batches (fun _ => true) [some [("doc_id", PVal.vStr "x")]]).2.1).trans (by decide)

/-! ### C10: termination and chunk bound of `chunk_text` -/

theorem chunkLoop_isSome (env : EmbedEnv) (tokens : List Nat) (maxT ov : Nat) :
    ∀ fuel start, tokens.length ≤ start + fuel * (maxT - ov) →
      (chunkLoop env tokens maxT ov fuel start).isSome := by
  intro fuel
  induction fuel with
  | zero =>
    intro start h
    unfold chunkLoop
    rw [if_neg (by omega)]
    simp
  | succ f ih =>
    intro start h
    unfold chunkLoop
    split
    · have := ih (start + (maxT - ov)) (by rw [Nat.succ_mul] at h; omega)
      simpa using this
    · simp

theorem chunkLoop_sizes (env : EmbedEnv) (tokens : List Nat) (maxT ov : Nat) :
    ∀ fuel start cs, chunkLoop env tokens maxT ov fuel start = some cs →
      ∀ c ∈ cs, ∃ sl : List Nat, sl.length ≤ maxT ∧ c = env.decode sl := by
  intro fuel
  induction fuel with
  | zero =>
    intro start cs h
    unfold chunkLoop at h
    split at h
    · cases h
    · cases h
      intro c hc
      simp at hc
  | succ f ih =>
    intro start cs h
    unfold chunkLoop at h
    split at h
    · obtain ⟨rest, hrest, rfl⟩ := Option.map_eq_some'.mp h
      intro c hc
      rcases List.mem_cons.mp hc with rfl | hc2
      · exact ⟨(tokens.drop start).take maxT, by simp, rfl⟩
      · exact ih _ rest hrest c hc2
    · cases h
      intro c hc
      simp at hc

/-- C10: `chunk_text` terminates for the default parameters (overlap 200
strictly below the 2000-token budget, so each window advances by 1800
tokens), every chunk it emits is decoded from at most 2000 tokens, and
the precondition is necessary: with overlap at or above the budget, the
loop's `start` never increases past 0, so on a non-empty token list the
`start < len(tokens)` guard holds forever. -/
theorem C10_chunk_text (env : EmbedEnv) (text : String) :
    (chunk_text env text).isSome ∧
    (∀ cs, chunk_text env text = some cs →
      ∀ c ∈ cs, ∃ sl : List Nat, sl.length ≤ CHUNK_TOKENS ∧ c = env.decode sl) ∧
    (∀ (maxT ov : Nat) (tokens : List Nat), maxT ≤ ov → tokens ≠ [] →
      ∀ n, pyStart maxT ov n < (tokens.length : Int)) := by
  refine ⟨?_, ?_, ?_⟩
  · unfold chunk_text
    apply chunkLoop_isSome
    have hstep : 1 ≤ CHUNK_TOKENS - OVERLAP_TOKENS := by decide
    have := Nat.mul_le_mul_left (env.encode text).length hstep
    omega
  · intro cs h c hc
    exact chunkLoop_sizes env _ CHUNK_TOKENS OVERLAP_TOKENS _ _ cs h c hc
  · intro maxT ov tokens hov hne n
    unfold pyStart
    have h1 : (maxT : Int) - ov ≤ 0 := by omega
    have h2 : (n : Int) * ((maxT : Int) - ov) ≤ 0 :=
      mul_nonpos_of_nonneg_of_nonpos (by exact_mod_cast Nat.zero_le n) h1
    have h3 : 0 < (tokens.length : Int) := by
      have := List.length_pos.mpr hne
      exact_mod_cast this
    omega

/-- C10 witness: chunking succeeds on a concrete input, and with overlap
equal to the budget the loop guard never clears. -/
theorem C10_chunk_text_witness :
    (chunk_text w10Env "abc").isSome ∧ pyStart 2000 2000 3 < (([5] : List Nat).length : Int) :=
  ⟨(C10_chunk_text w10Env "abc").1,
   (C10_chunk_text w10Env "abc").2.2 2000 2000 [5] (by decide) (by decide) 3⟩

/-! ### C4: the embedding projector on empty and missing input -/

/-- C4 (amended): given a tokenizer that encodes the empty string to no
tokens and a model that maps an empty input list to an empty vector list,
`embed_document` of the EMPTY text returns the all-zero vector of
`TARGET_DIM = 1024` without raising; a MISSING (`None`) text, however, is
replaced by the sentinel `"No text provided"` and embedded through the
model like any other text (the zero vector arises for it only if the
model call fails, which the last conjunct covers for any input). -/
theorem C4_embed (env : EmbedEnv)
    (henc : env.encode "" = []) (hmodel : env.modelEncode [] = some []) :
    embed_document env (some "") = some (List.replicate TARGET_DIM 0) ∧
    preprocess_text env none = "No text provided" ∧
    (∀ t cs, chunk_text env (preprocess_text env t) = some cs →
      env.modelEncode cs = none →
      embed_document env t = some (List.replicate TARGET_DIM 0)) := by
  refine ⟨?_, rfl, ?_⟩
  · unfold embed_document
    simp only []
    have hpre : preprocess_text env (some "") = "" := rfl
    rw [hpre]
    have hct : chunk_text env "" = some [] := by
      unfold chunk_text
      rw [henc]
      rfl
    rw [hct]
    simp [hmodel]
  · intro t cs hct hmodel2
    unfold embed_document
    simp only []
    rw [hct]
    simp [hmodel2]

/-- C4 counterexample: with a well-behaved tokenizer and model, a MISSING
text is embedded via the sentinel and yields the model's pooled vector
(here of the model's own dimension 2), not the 1024-long zero vector the
claim promises. -/
theorem C4_embed_cex :
    c4Env.encode "" = [] ∧ c4Env.modelEncode [] = some [] ∧
    (embed_document c4Env none).map List.length = some 2 ∧
    ¬ embed_document c4Env none = some (List.replicate TARGET_DIM 0) := by
  have hlen : (embed_document c4Env none).map List.length = some 2 := by decide
  refine ⟨rfl, rfl, hlen, ?_⟩
  intro h
  have h2 : (embed_document c4Env none).map List.length =
      some (List.replicate TARGET_DIM (0 : ℚ)).length := by rw [h]; rfl
  rw [hlen, List.length_replicate] at h2
  exact absurd (Option.some.inj h2) (by decide)

/-- C4 witness: the empty-text zero-vector path on a concrete
environment. -/
theorem C4_embed_witness :
    c4Env.encode "" = [] ∧
    embed_document c4Env (some "") = some (List.replicate TARGET_DIM 0) :=
  ⟨rfl, (C4_embed c4Env rfl rfl).1⟩

/-! ### C2: `split_patent_documents` on well-formed spans -/

theorem matchLit_self (pat r : List Char) : matchLit pat (pat ++ r) = some r := by
  unfold matchLit
  rw [if_pos (List.take_left pat r)]
  rw [List.drop_left]

theorem matchLit_some (pat l r : List Char) (h : matchLit pat l = some r) : l = pat ++ r := by
  unfold matchLit at h
  split at h
  · rename_i hc
    cases h
    conv_lhs => rw [← List.take_append_drop pat.length l]
    rw [hc]
  · cases h

theorem takeWhile_all_append (p : Char → Bool) (a b : List Char)
    (h : ∀ c ∈ a, p c = true) : (a ++ b).takeWhile p = a ++ b.takeWhile p := by
  induction a with
  | nil => simp
  | cons c cs ih =>
    rw [List.cons_append, List.takeWhile_cons, if_pos (h c (by simp))]
    rw [ih (fun x hx => h x (by simp [hx]))]
    simp

theorem dropWhile_all_append (p : Char → Bool) (a b : List Char)
    (h : ∀ c ∈ a, p c = true) : (a ++ b).dropWhile p = b.dropWhile p := by
  induction a with
  | nil => simp
  | cons c cs ih =>
    rw [List.cons_append, List.dropWhile_cons, if_pos (h c (by simp)),
      ih (fun x hx => h x (by simp [hx]))]

theorem dropWhile_cons_neg (p : Char → Bool) (c : Char) (l : List Char) (h : p c = false) :
    (c :: l).dropWhile p = c :: l := by
  rw [List.dropWhile_cons, if_neg (by simp [h])]

theorem takeWhile_cons_neg (p : Char → Bool) (c : Char) (l : List Char) (h : p c = false) :
    (c :: l).takeWhile p = [] := by
  rw [List.takeWhile_cons, if_neg (by simp [h])]

theorem gtChunk_eq (a r : List Char) (ha : a ≠ []) (hgt : '>' ∉ a) :
    gtChunk (a ++ '>' :: r) = some r := by
  have hall : ∀ c ∈ a, (c ≠ '>' : Bool) = true := by
    intro c hc
    simp
    intro hcon
    exact hgt (hcon ▸ hc)
  unfold gtChunk
  rw [takeWhile_all_append _ _ _ hall, takeWhile_cons_neg _ _ _ (by simp),
    dropWhile_all_append _ _ _ hall, dropWhile_cons_neg _ _ _ (by simp)]
  rw [if_neg (by simp [ha])]
  rfl

theorem gtChunk_some (l r : List Char) (h : gtChunk l = some r) : ∃ p, l = p ++ r := by
  unfold gtChunk at h
  split at h
  · cases h
  · split at h
    · rename_i hdw
      cases h
      refine ⟨l.takeWhile (· ≠ '>') ++ ['>'], ?_⟩
      conv_lhs => rw [← List.takeWhile_append_dropWhile (p := (· ≠ '>')) (l := l)]
      rw [hdw]
      simp
    · cases h

theorem azRunGt_eq (nm r : List Char) (hne : nm ≠ []) (haz : ∀ c ∈ nm, isAzDash c = true) :
    azRunGt (nm ++ '>' :: r) = some r := by
  unfold azRunGt
  rw [takeWhile_all_append _ _ _ haz, takeWhile_cons_neg _ _ _ (by decide),
    dropWhile_all_append _ _ _ haz, dropWhile_cons_neg _ _ _ (by decide)]
  rw [if_neg (by simp [hne])]
  rfl

theorem azRunGt_some (l r : List Char) (h : azRunGt l = some r) : ∃ p, l = p ++ r := by
  unfold azRunGt at h
  split at h
  · cases h
  · split at h
    · rename_i hdw
      cases h
      refine ⟨l.takeWhile isAzDash ++ ['>'], ?_⟩
      conv_lhs => rw [← List.takeWhile_append_dropWhile (p := isAzDash) (l := l)]
      rw [hdw]
      simp
    · cases h

theorem headChunk_eq (hd r : List Char) (hne : hd ≠ [])
    (hhead : isAzDash (hd.headD ' ') = true) (hgt : '>' ∉ hd) :
    headChunk (hd ++ '>' :: r) = some r := by
  match hd with
  | c :: t =>
    show headChunk (c :: (t ++ '>' :: r)) = some r
    show (if isAzDash c = true then gtChunk (c :: (t ++ '>' :: r)) else none) = some r
    rw [if_pos (by simpa using hhead)]
    have : (c :: t) ++ '>' :: r = c :: (t ++ '>' :: r) := by simp
    rw [← this]
    exact gtChunk_eq (c :: t) r (by simp) hgt

theorem headChunk_some (l r : List Char) (h : headChunk l = some r) : ∃ p, l = p ++ r := by
  unfold headChunk at h
  split at h
  · split at h
    · exact gtChunk_some _ _ h
    · cases h
  · cases h

theorem dropWhile_decomp (p : Char → Bool) (l : List Char) : ∃ x, l = x ++ l.dropWhile p :=
  ⟨l.takeWhile p, (List.takeWhile_append_dropWhile p l).symm⟩

theorem hasEnd_cons (c : Char) (rest : List Char) :
    hasEndTag (c :: rest) = ((matchLit endTagLit (c :: rest)).isSome || hasEndTag rest) := rfl

/-- `</us-patent-` cannot begin strictly inside a straddle of a clean
body and the end-tag literal: `<` occurs in the literal only at index 0. -/
theorem matchLit_endTag_straddle (body tail : List Char) (hb : body ≠ [])
    (hno : hasEndTag body = false) :
    matchLit endTagLit (body ++ (endTagLit ++ tail)) = none := by
  cases hm : matchLit endTagLit (body ++ (endTagLit ++ tail)) with
  | none => rfl
  | some r =>
    exfalso
    have heq := matchLit_some _ _ _ hm
    by_cases hlen : endTagLit.length ≤ body.length
    · have htake := congrArg (List.take endTagLit.length) heq
      rw [List.take_append_of_le_length hlen, List.take_left] at htake
      have hself : (matchLit endTagLit body).isSome = true := by
        unfold matchLit
        rw [if_pos htake]
        rfl
      match body, hb with
      | c :: rest, _ =>
        rw [hasEnd_cons, hself] at hno
        simp at hno
    · push_neg at hlen
      have h1 : (body ++ (endTagLit ++ tail))[body.length]? = some '<' := by
        rw [List.getElem?_append_right (le_refl _)]
        simp
        rfl
      rw [heq, List.getElem?_append_left (by simpa using hlen)] at h1
      have hblen : 1 ≤ body.length := List.length_pos.mpr hb
      have hkey : ∀ m, m < 12 → 1 ≤ m → endTagLit[m]? ≠ some '<' := by decide
      exact hkey body.length (by simpa [endTagLit] using hlen) hblen h1

theorem findEnd_hit (l r : List Char) (hne : l ≠ [])
    (h : (matchLit endTagLit l).bind azRunGt = some r) : findEnd l = some r := by
  match l, hne with
  | c :: rest, _ =>
    obtain ⟨after, h1, h2⟩ := Option.bind_eq_some.mp h
    simp [findEnd, h1, h2]

theorem findEnd_skip (c : Char) (rest : List Char)
    (h : (matchLit endTagLit (c :: rest)).bind azRunGt = none) :
    findEnd (c :: rest) = findEnd rest := by
  cases h1 : matchLit endTagLit (c :: rest) with
  | none => simp [findEnd, h1]
  | some after =>
    have h2 : azRunGt after = none := by
      rw [h1] at h
      simpa using h
    simp [findEnd, h1, h2]

theorem findEnd_reach : ∀ (body : List Char), hasEndTag body = false →
    ∀ (nm tail : List Char), nm ≠ [] → (∀ c ∈ nm, isAzDash c = true) →
    findEnd (body ++ (endTagLit ++ (nm ++ '>' :: tail))) = some tail := by
  intro body
  induction body with
  | nil =>
    intro _ nm tail hnm haz
    rw [List.nil_append]
    apply findEnd_hit _ _ (by simp [endTagLit])
    rw [matchLit_self]
    simpa using azRunGt_eq nm tail hnm haz
  | cons b body' ih =>
    intro hno nm tail hnm haz
    rw [hasEnd_cons] at hno
    have hno' : hasEndTag body' = false := by
      cases hx : hasEndTag body'
      · rfl
      · rw [hx] at hno
        simp at hno
    rw [List.cons_append]
    rw [findEnd_skip]
    · exact ih hno' nm tail hnm haz
    · have hstr := matchLit_endTag_straddle (b :: body') (nm ++ '>' :: tail) (by simp)
        (by rw [hasEnd_cons]; exact hno)
      rw [show (b :: body') ++ (endTagLit ++ (nm ++ '>' :: tail)) =
        b :: (body' ++ (endTagLit ++ (nm ++ '>' :: tail))) from by simp] at hstr
      rw [hstr]
      rfl

theorem findEnd_none (l : List Char) (h : hasEndTag l = false) : findEnd l = none := by
  induction l with
  | nil => rfl
  | cons c rest ih =>
    rw [hasEnd_cons] at h
    have h1 : matchLit endTagLit (c :: rest) = none := by
      cases hx : matchLit endTagLit (c :: rest)
      · rfl
      · rw [hx] at h
        simp at h
    have h2 : hasEndTag rest = false := by
      cases hx : hasEndTag rest
      · rfl
      · rw [hx] at h
        simp at h
    rw [findEnd_skip c rest (by rw [h1]; rfl)]
    exact ih h2

theorem findEnd_some_hasEnd (l r : List Char) (h : findEnd l = some r) :
    hasEndTag l = true := by
  induction l with
  | nil => cases h
  | cons c rest ih =>
    rw [hasEnd_cons]
    cases h1 : matchLit endTagLit (c :: rest) with
    | some after => simp [h1]
    | none =>
      rw [findEnd_skip c rest (by rw [h1]; rfl)] at h
      simp [ih h]

theorem findEnd_decomp (l r : List Char) (h : findEnd l = some r) : ∃ p, l = p ++ r := by
  induction l with
  | nil => cases h
  | cons c rest ih =>
    cases h1 : matchLit endTagLit (c :: rest) with
    | none =>
      rw [findEnd_skip c rest (by rw [h1]; rfl)] at h
      obtain ⟨p, hp⟩ := ih h
      exact ⟨c :: p, by simp [hp]⟩
    | some after =>
      cases h2 : azRunGt after with
      | none =>
        rw [findEnd_skip c rest (by rw [h1]; simpa using h2)] at h
        obtain ⟨p, hp⟩ := ih h
        exact ⟨c :: p, by simp [hp]⟩
      | some r2 =>
        have hfe : findEnd (c :: rest) = some r2 :=
          findEnd_hit _ _ (by simp) (by rw [h1]; simpa using h2)
        rw [hfe] at h
        injection h with h3
        subst h3
        have e1 := matchLit_some _ _ _ h1
        obtain ⟨q, e2⟩ := azRunGt_some _ _ h2
        exact ⟨endTagLit ++ q, by rw [e1, e2]; simp⟩

theorem hasEnd_append_right (x r : List Char) (h : hasEndTag r = true) :
    hasEndTag (x ++ r) = true := by
  induction x with
  | nil => simpa
  | cons c cs ih =>
    rw [List.cons_append, hasEnd_cons, ih]
    simp

theorem matchAt_decomp (l r : List Char) (h : matchAt l = some r) :
    ∃ p, l = p ++ r ∧ p ≠ [] := by
  unfold matchAt at h
  obtain ⟨l1, h1, h⟩ := Option.bind_eq_some.mp h
  obtain ⟨l2, h2, h⟩ := Option.bind_eq_some.mp h
  obtain ⟨l3, h3, h⟩ := Option.bind_eq_some.mp h
  obtain ⟨l4, h4, h⟩ := Option.bind_eq_some.mp h
  obtain ⟨l5, h5, h⟩ := Option.bind_eq_some.mp h
  obtain ⟨l6, h6, h⟩ := Option.bind_eq_some.mp h
  have e1 := matchLit_some _ _ _ h1
  obtain ⟨p2, e2⟩ := gtChunk_some _ _ h2
  obtain ⟨p2b, e2b⟩ := dropWhile_decomp isSpacePy l2
  have e3 := matchLit_some _ _ _ h3
  obtain ⟨p4, e4⟩ := gtChunk_some _ _ h4
  obtain ⟨p4b, e4b⟩ := dropWhile_decomp isSpacePy l4
  have e5 := matchLit_some _ _ _ h5
  obtain ⟨p6, e6⟩ := headChunk_some _ _ h6
  obtain ⟨p7, e7⟩ := findEnd_decomp _ _ h
  refine ⟨xmlLit ++ p2 ++ p2b ++ doctypeLit ++ p4 ++ p4b ++ openLit ++ p6 ++ p7, ?_,
    by simp [xmlLit]⟩
  rw [e1, e2, e2b, e3, e4, e4b, e5, e6, e7]
  simp

theorem matchAt_hasEnd (l r : List Char) (h : matchAt l = some r) : hasEndTag l = true := by
  unfold matchAt at h
  obtain ⟨l1, h1, h⟩ := Option.bind_eq_some.mp h
  obtain ⟨l2, h2, h⟩ := Option.bind_eq_some.mp h
  obtain ⟨l3, h3, h⟩ := Option.bind_eq_some.mp h
  obtain ⟨l4, h4, h⟩ := Option.bind_eq_some.mp h
  obtain ⟨l5, h5, h⟩ := Option.bind_eq_some.mp h
  obtain ⟨l6, h6, h⟩ := Option.bind_eq_some.mp h
  have e1 := matchLit_some _ _ _ h1
  obtain ⟨p2, e2⟩ := gtChunk_some _ _ h2
  obtain ⟨p2b, e2b⟩ := dropWhile_decomp isSpacePy l2
  have e3 := matchLit_some _ _ _ h3
  obtain ⟨p4, e4⟩ := gtChunk_some _ _ h4
  obtain ⟨p4b, e4b⟩ := dropWhile_decomp isSpacePy l4
  have e5 := matchLit_some _ _ _ h5
  obtain ⟨p6, e6⟩ := headChunk_some _ _ h6
  have h7 := findEnd_some_hasEnd _ _ h
  rw [e1, e2, e2b, e3, e4, e4b, e5, e6]
  have hre : xmlLit ++ (p2 ++ (p2b ++ (doctypeLit ++ (p4 ++ (p4b ++ (openLit ++ (p6 ++ l6)))))) )
      = (xmlLit ++ p2 ++ p2b ++ doctypeLit ++ p4 ++ p4b ++ openLit ++ p6) ++ l6 := by simp
  rw [hre]
  exact hasEnd_append_right _ _ h7

theorem matchAt_length (l r : List Char) (h : matchAt l = some r) : r.length < l.length := by
  obtain ⟨p, hp, hne⟩ := matchAt_decomp l r h
  rw [hp, List.length_append]
  have := List.length_pos.mpr hne
  omega

theorem scanAux_mono : ∀ (n : Nat) (l : List Char), l.length ≤ n →
    ∀ f1 f2, l.length ≤ f1 → l.length ≤ f2 → scanAux f1 l = scanAux f2 l := by
  intro n
  induction n with
  | zero =>
    intro l hl f1 f2 _ _
    match l with
    | [] =>
      match f1, f2 with
      | 0, 0 => rfl
      | 0, _ + 1 => rfl
      | _ + 1, 0 => rfl
      | _ + 1, _ + 1 => rfl
  | succ n ih =>
    intro l hl f1 f2 h1 h2
    match l with
    | [] =>
      match f1, f2 with
      | 0, 0 => rfl
      | 0, _ + 1 => rfl
      | _ + 1, 0 => rfl
      | _ + 1, _ + 1 => rfl
    | c :: rest =>
      match f1, f2, h1, h2 with
      | g1 + 1, g2 + 1, hh1, hh2 =>
        show scanAux (g1 + 1) (c :: rest) = scanAux (g2 + 1) (c :: rest)
        unfold scanAux
        have hlc : (c :: rest).length = rest.length + 1 := rfl
        cases hm : matchAt (c :: rest) with
        | some r =>
          have hr := matchAt_length _ _ hm
          simp only []
          congr 1
          exact ih r (by omega) g1 g2 (by omega) (by omega)
        | none =>
          simp only []
          exact ih rest (by omega) g1 g2 (by omega) (by omega)

theorem scan_cons_none (c : Char) (rest : List Char) (h : matchAt (c :: rest) = none) :
    scan (c :: rest) = scan rest := by
  unfold scan
  show scanAux (rest.length + 1) (c :: rest) = scanAux rest.length rest
  conv_lhs => rw [scanAux.eq_def]
  simp only [h]

theorem scan_cons_some (l r : List Char) (h : matchAt l = some r) (hne : l ≠ []) :
    scan l = l.take (l.length - r.length) :: scan r := by
  match l, hne with
  | c :: rest, _ =>
    have hr := matchAt_length _ _ h
    unfold scan
    show scanAux (rest.length + 1) (c :: rest) = _
    conv_lhs => rw [scanAux.eq_def]
    simp only [h]
    congr 1
    exact scanAux_mono r.length r (le_refl _) rest.length r.length
      (by have hlc : (c :: rest).length = rest.length + 1 := rfl; omega) (le_refl _)

theorem matchAt_head (c : Char) (rest : List Char) (hc : c ≠ '<') :
    matchAt (c :: rest) = none := by
  have h1 : matchLit xmlLit (c :: rest) = none := by
    cases hm : matchLit xmlLit (c :: rest) with
    | none => rfl
    | some r =>
      exfalso
      have he := matchLit_some _ _ _ hm
      rw [show xmlLit = '<' :: "?xml".data from rfl, List.cons_append] at he
      injection he with h _
      exact hc h
  unfold matchAt
  rw [h1]
  rfl

theorem scan_ws_append (g : List Char) (hg : ∀ c ∈ g, isSpacePy c = true) (r : List Char) :
    scan (g ++ r) = scan r := by
  induction g with
  | nil => rfl
  | cons c cs ih =>
    have hc : c ≠ '<' := by
      intro h
      have hsp := hg c (by simp)
      rw [h] at hsp
      exact absurd hsp (by decide)
    rw [List.cons_append, scan_cons_none c (cs ++ r) (matchAt_head c _ hc)]
    exact ih (fun x hx => hg x (by simp [hx]))

theorem scan_trunc (t : List Char) (ht : hasEndTag t = false) : scan t = [] := by
  induction t with
  | nil => rfl
  | cons c rest ih =>
    rw [hasEnd_cons] at ht
    have ht' : hasEndTag rest = false := by
      cases hx : hasEndTag rest
      · rfl
      · rw [hx] at ht
        simp at ht
    have hm : matchAt (c :: rest) = none := by
      cases hmx : matchAt (c :: rest) with
      | none => rfl
      | some r =>
        exfalso
        have h2 := matchAt_hasEnd _ _ hmx
        rw [hasEnd_cons] at h2
        rw [h2] at ht
        simp at ht
    rw [scan_cons_none c rest hm]
    exact ih ht'

theorem matchAt_span (s r : List Char) (hs : wfSpan s) : matchAt (s ++ r) = some r := by
  obtain ⟨a, w1, b, w2, hd, body, nm, heq, ha, hagt, hw1, hb, hbgt, hw2, hhd, hhdh, hhdgt,
    hbody, hnm, hnmaz⟩ := hs
  subst heq
  have e0 : (xmlLit ++ a ++ '>' :: (w1 ++ doctypeLit ++ b ++ '>' :: (w2 ++ openLit ++ hd ++ '>' :: (body ++ endTagLit ++ nm ++ ['>'])))) ++ r =
      xmlLit ++ (a ++ '>' :: (w1 ++ (doctypeLit ++ (b ++ '>' :: (w2 ++ (openLit ++ (hd ++ '>' :: (body ++ (endTagLit ++ (nm ++ '>' :: r)))))))))) := by
    simp
  have h2 : gtChunk (a ++ '>' :: (w1 ++ (doctypeLit ++ (b ++ '>' :: (w2 ++ (openLit ++ (hd ++ '>' :: (body ++ (endTagLit ++ (nm ++ '>' :: r)))))))))) =
      some (w1 ++ (doctypeLit ++ (b ++ '>' :: (w2 ++ (openLit ++ (hd ++ '>' :: (body ++ (endTagLit ++ (nm ++ '>' :: r))))))))) :=
    gtChunk_eq a _ ha hagt
  have h2b : (w1 ++ (doctypeLit ++ (b ++ '>' :: (w2 ++ (openLit ++ (hd ++ '>' :: (body ++ (endTagLit ++ (nm ++ '>' :: r))))))))).dropWhile isSpacePy =
      doctypeLit ++ (b ++ '>' :: (w2 ++ (openLit ++ (hd ++ '>' :: (body ++ (endTagLit ++ (nm ++ '>' :: r))))))) := by
    rw [dropWhile_all_append _ _ _ hw1]
    exact dropWhile_cons_neg _ _ _ (by decide)
  have h4 : gtChunk (b ++ '>' :: (w2 ++ (openLit ++ (hd ++ '>' :: (body ++ (endTagLit ++ (nm ++ '>' :: r))))))) =
      some (w2 ++ (openLit ++ (hd ++ '>' :: (body ++ (endTagLit ++ (nm ++ '>' :: r)))))) :=
    gtChunk_eq b _ hb hbgt
  have h4b : (w2 ++ (openLit ++ (hd ++ '>' :: (body ++ (endTagLit ++ (nm ++ '>' :: r)))))).dropWhile isSpacePy =
      openLit ++ (hd ++ '>' :: (body ++ (endTagLit ++ (nm ++ '>' :: r)))) := by
    rw [dropWhile_all_append _ _ _ hw2]
    exact dropWhile_cons_neg _ _ _ (by decide)
  have h6 : headChunk (hd ++ '>' :: (body ++ (endTagLit ++ (nm ++ '>' :: r)))) =
      some (body ++ (endTagLit ++ (nm ++ '>' :: r))) :=
    headChunk_eq hd _ hhd hhdh hhdgt
  have h7 : findEnd (body ++ (endTagLit ++ (nm ++ '>' :: r))) = some r :=
    findEnd_reach body hbody nm r hnm hnmaz
  rw [e0]
  unfold matchAt
  simp only [matchLit_self, Option.some_bind, h2, h2b, h4, h4b, h6, h7]

theorem wfSpan_ne_nil (s : List Char) (hs : wfSpan s) : s ≠ [] := by
  obtain ⟨a, w1, b, w2, hd, body, nm, heq, -⟩ := hs
  rw [heq]
  exact fun h => List.noConfusion h

theorem scan_blob : ∀ (ps : List (List Char × List Char)) (t : List Char),
    (∀ p ∈ ps, (∀ c ∈ p.1, isSpacePy c = true) ∧ wfSpan p.2) →
    hasEndTag t = false →
    scan (blobCore ps ++ t) = ps.map Prod.snd := by
  intro ps
  induction ps with
  | nil =>
    intro t _ ht
    rw [show blobCore [] ++ t = t from by simp [blobCore]]
    rw [scan_trunc t ht]
    rfl
  | cons p ps ih =>
    intro t hps ht
    obtain ⟨g, s⟩ := p
    have hg := (hps (g, s) (by simp)).1
    have hs := (hps (g, s) (by simp)).2
    have e1 : blobCore ((g, s) :: ps) ++ t = g ++ (s ++ (blobCore ps ++ t)) := by
      simp [blobCore]
    rw [e1, scan_ws_append g hg _]
    have hm : matchAt (s ++ (blobCore ps ++ t)) = some (blobCore ps ++ t) :=
      matchAt_span s _ hs
    have hne : s ++ (blobCore ps ++ t) ≠ [] := by
      have hs0 := wfSpan_ne_nil s hs
      cases s
      · exact absurd rfl hs0
      · simp
    rw [scan_cons_some _ _ hm hne]
    have etake : (s ++ (blobCore ps ++ t)).take ((s ++ (blobCore ps ++ t)).length - (blobCore ps ++ t).length) = s := by
      rw [List.length_append]
      rw [show s.length + (blobCore ps ++ t).length - (blobCore ps ++ t).length = s.length from by omega]
      exact List.take_left s _
    rw [etake]
    rw [ih t (fun q hq => hps q (by simp [hq])) ht]
    rfl

/-- C2: for every USPTO multi-document blob consisting of K complete,
well-formed `<?xml…?><!DOCTYPE…><us-patent-*>…</us-patent-*>` spans, each
preceded by a (possibly empty) whitespace gap, followed by one truncated
trailing fragment containing no closing-tag literal,
`split_patent_documents` returns exactly the K spans — K substrings,
non-overlapping and in document order — and the truncated fragment is
simply not matched (no error). -/
theorem C2_split (ps : List (List Char × List Char)) (t : List Char)
    (hps : ∀ p ∈ ps, (∀ c ∈ p.1, isSpacePy c = true) ∧ wfSpan p.2)
    (ht : hasEndTag t = false) :
    split_patent_documents (String.mk (blobCore ps ++ t))
      = ps.map (fun p => String.mk p.2) ∧
    (split_patent_documents (String.mk (blobCore ps ++ t))).length = ps.length := by
  have h : scan (blobCore ps ++ t) = ps.map Prod.snd := scan_blob ps t hps ht
  constructor
  · show (scan (String.mk (blobCore ps ++ t)).data).map String.mk = _
    rw [show (String.mk (blobCore ps ++ t)).data = blobCore ps ++ t from rfl]
    rw [h, List.map_map]
    rfl
  · show ((scan (String.mk (blobCore ps ++ t)).data).map String.mk).length = _
    rw [show (String.mk (blobCore ps ++ t)).data = blobCore ps ++ t from rfl]
    rw [h]
    simp

theorem C2_split_witness :
    split_patent_documents (String.mk (blobCore [("\n".data, w2Span)] ++ w2Trunc))
      = [String.mk w2Span] ∧
    (split_patent_documents (String.mk (blobCore [("\n".data, w2Span)] ++ w2Trunc))).length = 1 := by
  have h := C2_split [("\n".data, w2Span)] w2Trunc
    (by
      intro p hp
      have hp' : p = ("\n".data, w2Span) := by simpa using hp
      subst hp'
      exact ⟨by decide, " v?".data, [], " d".data, [], "grant x".data, "BODY".data,
        "grant".data, by decide⟩)
    (by decide)
  exact ⟨h.1, h.2⟩
